import Mathlib

/-!
Verification of the client-side session-monitoring and batch-execution
subsystem of `automation-bot-ui`.

The development shallowly embeds the relevant TypeScript source:

* `EnhancedLogViewer` (`src/components/automation/EnhancedLogViewer.tsx`):
  the pure log statistics (`stats`) and CSV export (`exportLogs`, `csv` case).
* `SessionComparisonTool` (`src/components/automation/SessionComparisonTool.tsx`):
  `calculateMetrics`, `metricAnalysis`, `addSessionToCompare`.
* `MultiLogViewer` (`src/components/automation/MultiLogViewer.tsx`): `addSession`.
* `BatchOperationsManager` (`src/components/automation/BatchOperationsManager.tsx`):
  `executeBatch` / `updateSessionStatus`, including the React state
  semantics (functional state updates see the current state; plain reads of a
  `useState` variable inside an async handler see the snapshot captured when
  the handler was invoked).

JavaScript numbers are modelled as `ℚ` (for divisions and averages), `Int`
(epoch milliseconds) or `Nat` (counts); `Record`s keyed by strings are
association lists in insertion order, matching JS `Map` iteration order.
-/

namespace AutomationBot

/-- One log line as consumed by the viewers.  `data` stands for the
already-serialized structured payload (`JSON.stringify(log.data)` in the
source); `timestamp` is the raw backend string. -/
structure AutomationLog where
  timestamp : String
  level : String
  message : String
  data : String
  deriving DecidableEq, Repr

/-- `m.set(k, v)` on a JS `Map`: overwrite in place, or append preserving
insertion order. -/
def mapSet {α : Type} (k : String) (v : α) : List (String × α) → List (String × α)
  | [] => [(k, v)]
  | (k', v') :: rest => if k' = k then (k, v) :: rest else (k', v') :: mapSet k v rest

/-- `m.get(k)` on a JS `Map`. -/
def mapLookup {α : Type} (k : String) : List (String × α) → Option α
  | [] => none
  | (k', v) :: rest => if k' = k then some v else mapLookup k rest

/-- `m.has(k)` on a JS `Map`. -/
def mapHas {α : Type} (k : String) (m : List (String × α)) : Bool :=
  (mapLookup k m).isSome

namespace LogViewer

/-- `r[k] || 0` on a JS `Record<string, number>` modelled as an association
list. -/
def recGet (k : String) : List (String × Nat) → Nat
  | [] => 0
  | (k', v) :: rest => if k' = k then v else recGet k rest

/-- `r[k] = v` on a JS `Record<string, number>`: overwrite the existing key or
append a fresh one. -/
def recSet (k : String) (v : Nat) : List (String × Nat) → List (String × Nat)
  | [] => [(k, v)]
  | (k', v') :: rest => if k' = k then (k, v) :: rest else (k', v') :: recSet k v rest

/-- The `byLevel` reduce in `stats`:
`acc[log.level] = (acc[log.level] || 0) + 1`, folded over the filtered logs. -/
def byLevelOf (logs : List AutomationLog) : List (String × Nat) :=
  logs.foldl (fun acc log => recSet log.level (recGet log.level acc + 1) acc) []

/-- Result shape of the `stats` memo (`LogStats` in the source). -/
structure LogStats where
  total : Nat
  byLevel : List (String × Nat)
  errorRate : ℚ
  avgLogsPerMinute : ℚ
  deriving DecidableEq, Repr

/-- The `stats` memo of `EnhancedLogViewer`.  `getTime` stands for
`new Date(s).getTime()` (timestamp parsing is a platform service). -/
def stats (getTime : String → Int) (filteredLogs : List AutomationLog) : LogStats :=
  let byLevel := byLevelOf filteredLogs
  let errorCount := recGet "error" byLevel
  let errorRate : ℚ :=
    if filteredLogs.length > 0 then ((errorCount : ℚ) / (filteredLogs.length : ℚ)) * 100 else 0
  let avgLogsPerMinute : ℚ :=
    if filteredLogs.length > 1 then
      match filteredLogs.head?, filteredLogs.getLast? with
      | some first, some last =>
        let durationMinutes : ℚ := ((getTime last.timestamp - getTime first.timestamp : Int) : ℚ) / 60000
        if durationMinutes > 0 then (filteredLogs.length : ℚ) / durationMinutes else 0
      | _, _ => 0
    else 0
  { total := filteredLogs.length
    byLevel := byLevel
    errorRate := errorRate
    avgLogsPerMinute := avgLogsPerMinute }

/-- `.replace(/"/g, '""')`: double every double-quote character. -/
def csvEscape (s : List Char) : List Char :=
  s.flatMap (fun c => if c = '"' then ['"', '"'] else [c])

/-- The CSV header row of `exportLogs` (`Timestamp,Level,Message,Data` plus a
newline). -/
def csvHeader : List Char := "Timestamp,Level,Message,Data\n".toList

/-- One CSV row of the `csv` branch of `exportLogs`: the four fields each
wrapped in quotes and separated by commas — only the message and data fields
pass through the quote-doubling `.replace`. -/
def csvLine (l : AutomationLog) : List Char :=
  ['"'] ++ l.timestamp.toList ++ ['"', ','] ++ ['"'] ++ l.level.toList ++ ['"', ','] ++
  ['"'] ++ csvEscape l.message.toList ++ ['"', ','] ++ ['"'] ++ csvEscape l.data.toList ++ ['"']

/-- The `csv` branch of `exportLogs`: header plus the rows joined with
newlines. -/
def exportCsv (logs : List AutomationLog) : List Char :=
  csvHeader ++ List.intercalate ['\n'] (logs.map csvLine)

/-- Parser mode: outside any quoted cell, inside a quoted cell, or just after
a quote seen inside a quoted cell (which either doubles to a literal quote or
closes the cell). -/
inductive CsvMode
  | plain
  | quoted
  | quotedQuote
  deriving DecidableEq, Repr

/-- Modelled from the spec: a standard (RFC 4180-style) CSV parser as a
one-character automaton.  `cur` — current cell; `row` — cells of the current
record; `acc` — finished records.  A doubled quote inside a quoted cell
yields one literal quote; a quote at the start of a cell opens quoting;
commas and newlines outside quotes separate cells and records; a trailing
final newline does not produce an empty record. -/
def runCSV (mode : CsvMode) (cur : List Char) (row : List (List Char))
    (acc : List (List (List Char))) : List Char → List (List (List Char))
  | [] => if cur.isEmpty ∧ row.isEmpty then acc else acc ++ [row ++ [cur]]
  | c :: rest =>
    match mode with
    | .quoted =>
      if c = '"' then runCSV .quotedQuote cur row acc rest
      else runCSV .quoted (cur ++ [c]) row acc rest
    | .quotedQuote =>
      if c = '"' then runCSV .quoted (cur ++ ['"']) row acc rest
      else if c = ',' then runCSV .plain [] (row ++ [cur]) acc rest
      else if c = '\n' then runCSV .plain [] [] (acc ++ [row ++ [cur]]) rest
      else runCSV .plain (cur ++ [c]) row acc rest
    | .plain =>
      if c = ',' then runCSV .plain [] (row ++ [cur]) acc rest
      else if c = '\n' then runCSV .plain [] [] (acc ++ [row ++ [cur]]) rest
      else if c = '"' ∧ cur.isEmpty then runCSV .quoted [] row acc rest
      else runCSV .plain (cur ++ [c]) row acc rest

/-- Modelled from the spec: parse a whole CSV document into records of cells. -/
def parseCSV (s : List Char) : List (List (List Char)) :=
  runCSV .plain [] [] [] s

/-- Derived form: the cell contents a faithful parse of one exported row must
recover. -/
def cells (l : AutomationLog) : List (List Char) :=
  [l.timestamp.toList, l.level.toList, l.message.toList, l.data.toList]

/-- Derived form: the parsed header record. -/
def headerCells : List (List Char) :=
  ["Timestamp".toList, "Level".toList, "Message".toList, "Data".toList]

end LogViewer

namespace Compare

/-- The slice of an `AutomationSession` that `SessionComparisonTool` reads.
Timestamps are epoch milliseconds of the parsed date strings (`none` when the
field is absent/falsy in the source object). -/
structure AutomationSession where
  id : String
  startTime : Option Int
  endTime : Option Int
  checkpoint : Option String
  deriving DecidableEq, Repr

/-- `TimelineEvent` from the source (the `duration` field is never written by
`calculateMetrics` and is omitted). -/
structure TimelineEvent where
  timestamp : String
  checkpoint : String
  status : String
  deriving DecidableEq, Repr

/-- `SessionMetrics` from the source. -/
structure SessionMetrics where
  totalLogs : Nat
  errorCount : Nat
  warningCount : Nat
  duration : ℚ
  checkpointsCompleted : Nat
  avgTimePerCheckpoint : ℚ
  errorRate : ℚ
  timeline : List TimelineEvent
  deriving DecidableEq, Repr

/-- JS `\w`: ASCII letter, digit or underscore. -/
def isWordCh (c : Char) : Bool := c.isAlphanum || c = '_'

/-- The character class `[:\s]` of the checkpoint pattern. -/
def isSepCh (c : Char) : Bool := c = ':' || c.isWhitespace

/-- Case-insensitive literal-prefix test (the `i` flag on the literal part of
the pattern). -/
def ciPrefix : List Char → List Char → Bool
  | [], _ => true
  | _ :: _, [] => false
  | p :: ps, c :: cs => (p.toLower = c.toLower) && ciPrefix ps cs

/-- Try `/checkpoint[:\s]+(\w+)/i` anchored at the head of `s`; returns the
capture group.  `[:\s]+` and `(\w+)` are greedy and their classes are
disjoint, so no backtracking arises. -/
def matchCheckpointAt (s : List Char) : Option (List Char) :=
  if ciPrefix "checkpoint".toList s then
    let rest := s.drop 10
    let seps := rest.takeWhile isSepCh
    if seps.isEmpty then none
    else
      let word := (rest.drop seps.length).takeWhile isWordCh
      if word.isEmpty then none else some word
  else none

/-- `message.match(/checkpoint[:\s]+(\w+)/i)`: leftmost match wins. -/
def findCheckpoint : List Char → Option (List Char)
  | [] => none
  | c :: cs =>
    match matchCheckpointAt (c :: cs) with
    | some w => some w
    | none => findCheckpoint cs

/-- `calculateMetrics` of `SessionComparisonTool`.  `now` models `Date.now()`. -/
def calculateMetrics (now : Int) (session : AutomationSession)
    (logs : List AutomationLog) : SessionMetrics :=
  let errorCount := (logs.filter (fun log => log.level = "error")).length
  let warningCount := (logs.filter (fun log => log.level = "warn")).length
  let startTime : Int := match session.startTime with | some t => t | none => 0
  let endTime : Int := match session.endTime with | some t => t | none => now
  let duration : ℚ := ((endTime - startTime : Int) : ℚ) / 1000
  let timeline :=
    (logs.foldl (fun (st : List TimelineEvent × Option String) log =>
      match findCheckpoint log.message.toList with
      | some w =>
        let name := String.mk w
        if st.2 ≠ some name then
          (st.1 ++ [{ timestamp := log.timestamp, checkpoint := name, status := "completed" }],
           some name)
        else st
      | none => st) ([], session.checkpoint)).1
  { totalLogs := logs.length
    errorCount := errorCount
    warningCount := warningCount
    duration := duration
    checkpointsCompleted := timeline.length
    avgTimePerCheckpoint := if timeline.length > 0 then duration / (timeline.length : ℚ) else 0
    errorRate := if logs.length > 0 then (errorCount : ℚ) / (logs.length : ℚ) else 0
    timeline := timeline }

/-- `betterWhen` of a `ComparisonMetric`. -/
inductive Dir
  | higher
  | lower
  deriving DecidableEq, Repr

/-- The opposite direction ("worst is the opposite extreme"). -/
def Dir.opp : Dir → Dir
  | .higher => .lower
  | .lower => .higher

/-- The `SessionMetrics` keys used by `comparisonMetrics`. -/
inductive MetricKey
  | totalLogs
  | errorCount
  | warningCount
  | duration
  | checkpointsCompleted
  | errorRate
  deriving DecidableEq, Repr

/-- `data.metrics[metric.key] as number`. -/
def SessionMetrics.val (m : SessionMetrics) : MetricKey → ℚ
  | .totalLogs => m.totalLogs
  | .errorCount => m.errorCount
  | .warningCount => m.warningCount
  | .duration => m.duration
  | .checkpointsCompleted => m.checkpointsCompleted
  | .errorRate => m.errorRate

/-- The `comparisonMetrics` table, reduced to key and `betterWhen` (labels and
formatters are presentational). -/
def comparisonMetrics : List (MetricKey × Dir) :=
  [(.totalLogs, .lower), (.errorCount, .lower), (.warningCount, .lower),
   (.duration, .lower), (.checkpointsCompleted, .higher), (.errorRate, .lower)]

/-- The best-update test of the `forEach` loop:
`metric.betterWhen === 'higher' ? value > bestValue : value < bestValue`. -/
def beats (dir : Dir) (v best : ℚ) : Bool :=
  match dir with
  | .higher => v > best
  | .lower => v < best

/-- Accumulator (`bestValue`/`bestId`/`worstValue`/`worstId`) of the
`sessions.forEach` loop in `metricAnalysis`. -/
structure BW where
  bestValue : Option ℚ
  bestId : String
  worstValue : Option ℚ
  worstId : String
  deriving DecidableEq, Repr

/-- One iteration of the `sessions.forEach` loop of `metricAnalysis`. -/
def bwStep (dir : Dir) (st : BW) (p : String × ℚ) : BW :=
  let st1 :=
    match st.bestValue with
    | none => { st with bestValue := some p.2, bestId := p.1 }
    | some bv =>
      if beats dir p.2 bv then { st with bestValue := some p.2, bestId := p.1 } else st
  match st1.worstValue with
  | none => { st1 with worstValue := some p.2, worstId := p.1 }
  | some wv =>
    if beats dir.opp p.2 wv then { st1 with worstValue := some p.2, worstId := p.1 } else st1

/-- One metric's pass of `metricAnalysis` over the session collection (given in
JS `Map` insertion order as `(id, value)` pairs): `(bestId, worstId)`. -/
def analyzeMetric (dir : Dir) (vals : List (String × ℚ)) : String × String :=
  let r := vals.foldl (bwStep dir)
    { bestValue := none, bestId := "", worstValue := none, worstId := "" }
  (r.bestId, r.worstId)

/-- The `metricAnalysis` memo: per comparison metric, best and worst session id. -/
def metricAnalysis (sessions : List (String × SessionMetrics)) :
    List (MetricKey × (String × String)) :=
  comparisonMetrics.map (fun m =>
    (m.1, analyzeMetric m.2 (sessions.map (fun p => (p.1, p.2.val m.1)))))

/-- Modelled from the spec: the best session for a direction is the first one,
in insertion order, that no session strictly beats in that direction
("extremal in the better direction, ties resolved first-encountered-wins"). -/
def specBest (dir : Dir) (vals : List (String × ℚ)) : Option String :=
  (vals.find? (fun p => vals.all (fun q => !(beats dir q.2 p.2)))).map (fun p => p.1)

/-- Modelled from the spec: the worst session is the opposite extreme, with
the same first-encountered tie resolution. -/
def specWorst (dir : Dir) (vals : List (String × ℚ)) : Option String :=
  specBest dir.opp vals

/-- Derived form used in the correctness proofs: the best-tracking (or, with
the opposite relation, worst-tracking) component of one `forEach` iteration. -/
def gStep (r : ℚ → ℚ → Bool) (st : Option ℚ × String) (p : String × ℚ) : Option ℚ × String :=
  match st.1 with
  | none => (some p.2, p.1)
  | some bv => if r p.2 bv then (some p.2, p.1) else st

/-- Derived form: `p` is unbeaten under `r` within `l`. -/
def gUnbeaten (r : ℚ → ℚ → Bool) (l : List (String × ℚ)) (p : String × ℚ) : Bool :=
  l.all (fun q => !(r q.2 p.2))

/-- `SessionData` held per compared session. -/
structure SessionData where
  session : AutomationSession
  logs : List AutomationLog
  metrics : SessionMetrics
  deriving DecidableEq, Repr

/-- `addSessionToCompare`.  `api` models `apiService.getAutomationLogs` (the
only backend call in the function); the second component of the result lists
the session ids for which a log fetch was issued.  A failed fetch is caught
and leaves the collection unchanged. -/
def addSessionToCompare (api : String → Except String (List AutomationLog)) (now : Int)
    (sessions : List (String × SessionData)) (session : AutomationSession) :
    List (String × SessionData) × List String :=
  if mapHas session.id sessions then (sessions, [])
  else
    match api session.id with
    | .ok logs =>
      (mapSet session.id
        { session := session, logs := logs, metrics := calculateMetrics now session logs }
        sessions,
       [session.id])
    | .error _ => (sessions, [session.id])

end Compare

namespace MultiLog

/-- The slice of an `AutomationSession` that `MultiLogViewer.addSession`
touches, including the legacy `state`/`currentCheckpoint` fallbacks. -/
structure MSession where
  id : String
  status : Option String
  state : Option String
  checkpoint : Option String
  currentCheckpoint : Option String
  deriving DecidableEq, Repr

/-- `LogSession`: one monitored-session registry entry. -/
structure LogSession where
  session : MSession
  logs : List AutomationLog
  isLoading : Bool
  error : Option String
  isPaused : Bool
  autoScroll : Bool
  searchTerm : String
  logLevel : String
  lastUpdate : Int
  deriving DecidableEq, Repr

/-- The normalization at the top of `addSession`:
`status: session.status || session.state`,
`checkpoint: session.checkpoint || session.currentCheckpoint`. -/
def normalizeSession (s : MSession) : MSession :=
  { s with
    status := match s.status with | some v => some v | none => s.state
    checkpoint := match s.checkpoint with | some v => some v | none => s.currentCheckpoint }

/-- The fresh entry `addSession` writes into the registry map. -/
def initialEntry (now : Int) (s : MSession) : LogSession :=
  { session := s, logs := [], isLoading := true, error := none, isPaused := false,
    autoScroll := true, searchTerm := "", logLevel := "all", lastUpdate := now }

/-- `addSession` restricted to its registry mutation: unconditionally
`sessions.set(id, freshEntry)`.  (The storage write and the immediate log
fetch are separate side effects and do not alter the registry.) -/
def addSession (now : Int) (st : List (String × LogSession)) (session : MSession) :
    List (String × LogSession) :=
  let normalized := normalizeSession session
  mapSet normalized.id (initialEntry now normalized) st

end MultiLog

namespace BatchOps

/-- Per-device sub-record status inside a `BatchExecution`. -/
inductive SubStatus
  | pending
  | running
  | completed
  | error
  deriving DecidableEq, Repr

/-- `BatchConfig.status`. -/
inductive BatchStatus
  | ready
  | running
  | completed
  | error
  | paused
  deriving DecidableEq, Repr

/-- The slice of `Device` that `executeBatch` reads. -/
structure Device where
  udid : String
  name : String
  isAvailable : Bool
  deriving DecidableEq, Repr

/-- `BatchConfig.schedule`. -/
structure Schedule where
  delayBetween : Nat
  maxConcurrent : Nat
  deriving DecidableEq, Repr

/-- `BatchConfig.params` (`Partial<AutomationStartRequest>`). -/
structure BatchParams where
  checkpoint : Option String
  generateProfile : Option Bool
  infinite : Option Bool
  maxRuns : Option Nat
  maxConsecutiveErrors : Option Nat
  deriving DecidableEq, Repr

/-- `BatchConfig`. -/
structure BatchConfig where
  id : String
  name : String
  flow : String
  devices : List String
  params : BatchParams
  schedule : Option Schedule
  status : BatchStatus
  deriving DecidableEq, Repr

/-- `AutomationStartRequest` as assembled inside the wave loop. -/
structure AutomationStartRequest where
  udid : String
  flow : String
  checkpoint : String
  generateProfile : Option Bool
  infinite : Option Bool
  maxRuns : Option Nat
  maxConsecutiveErrors : Option Nat
  deriving DecidableEq, Repr

/-- The request construction in the wave loop
(`checkpoint: batch.params.checkpoint || 'deletePhotos'`, rest passed through). -/
def mkRequest (batch : BatchConfig) (deviceId : String) : AutomationStartRequest :=
  { udid := deviceId
    flow := batch.flow
    checkpoint := match batch.params.checkpoint with | some c => c | none => "deletePhotos"
    generateProfile := batch.params.generateProfile
    infinite := batch.params.infinite
    maxRuns := batch.params.maxRuns
    maxConsecutiveErrors := batch.params.maxConsecutiveErrors }

/-- One per-device sub-record of a `BatchExecution`. -/
structure SubRecord where
  deviceId : String
  sessionId : Option String
  status : SubStatus
  error : Option String
  startTime : Option Int
  endTime : Option Int
  deriving DecidableEq, Repr

/-- `BatchExecution`. -/
structure BatchExecution where
  batchId : String
  sessions : List SubRecord
  startTime : Int
  endTime : Option Int
  deriving DecidableEq, Repr

/-- The component state touched by `executeBatch`. -/
structure BatchState where
  batches : List BatchConfig
  executions : List (String × BatchExecution)
  devices : List Device
  isExecuting : Bool
  deriving DecidableEq, Repr

/-- The in-place field mutation of `updateSessionStatus` on the found
sub-record (`sessionId`/`error` only overwritten when provided; `startTime`
stamped on `running`, `endTime` on `completed`/`error`). -/
def applyUpdate (status : SubStatus) (sessionId error : Option String) (now : Int)
    (s : SubRecord) : SubRecord :=
  { s with
    status := status
    sessionId := match sessionId with | some sid => some sid | none => s.sessionId
    error := match error with | some e => some e | none => s.error
    startTime := if status = .running then some now else s.startTime
    endTime := if status = .completed ∨ status = .error then some now else s.endTime }

/-- `execution.sessions.find(s => s.deviceId === deviceId)` plus in-place
update: only the first matching sub-record changes. -/
def updateFirst (deviceId : String) (f : SubRecord → SubRecord) :
    List SubRecord → List SubRecord
  | [] => []
  | s :: rest =>
    if s.deviceId = deviceId then f s :: rest else s :: updateFirst deviceId f rest

/-- `new Map(prev)` followed by an in-place mutation of the record found under
`k`: pointwise adjustment of the entry at `k`, all other entries untouched. -/
def adjustExec (k : String) (f : BatchExecution → BatchExecution) :
    List (String × BatchExecution) → List (String × BatchExecution) :=
  List.map (fun p => if p.1 = k then (p.1, f p.2) else p)

/-- `updateSessionStatus`: a functional `setExecutions` update, so it acts on
the current executions map. -/
def updateSessionStatus (st : BatchState) (batchId deviceId : String) (status : SubStatus)
    (sessionId error : Option String) (now : Int) : BatchState :=
  { st with
    executions := adjustExec batchId (fun ex =>
      { ex with
        sessions := updateFirst deviceId (applyUpdate status sessionId error now) ex.sessions })
      st.executions }

/-- One device's launch inside a wave: mark `running`; validate the device
against the `devices` snapshot; on request success mark `completed` with the
returned session id; any failure is caught and marks `error` with the thrown
message. -/
def runDevice (api : AutomationStartRequest → Except String String) (devs : List Device)
    (batch : BatchConfig) (now : Int) (st : BatchState) (deviceId : String) : BatchState :=
  let st1 := updateSessionStatus st batch.id deviceId .running none none now
  match devs.find? (fun d => d.udid = deviceId) with
  | none => updateSessionStatus st1 batch.id deviceId .error none (some "Device not available") now
  | some d =>
    if !d.isAvailable then
      updateSessionStatus st1 batch.id deviceId .error none (some "Device not available") now
    else
      match api (mkRequest batch deviceId) with
      | .ok sessionId =>
        updateSessionStatus st1 batch.id deviceId .completed (some sessionId) none now
      | .error msg =>
        updateSessionStatus st1 batch.id deviceId .error none (some msg) now

/-- Observable scheduling events of one execution: a device launch carrying
its intra-wave stagger (`index * 5000` ms before the start request) and the
inter-wave wait in milliseconds. -/
inductive BatchEv
  | launch (deviceId : String) (staggerMs : Nat)
  | interWaveWait (ms : Nat)
  deriving DecidableEq, Repr

/-- The `for (let i = 0; i < devices.length; i += maxConcurrent)` wave loop of
`executeBatch`.  Callers pass `mc ≥ 1` (the result of the `|| 3` coercion),
for which `d :: rest'.take (mc - 1)` / `rest'.drop (mc - 1)` is exactly the
`slice(i, i + maxConcurrent)` split; `rest.isEmpty` is the negation of the
`i + maxConcurrent < devices.length` guard on the inter-wave wait. -/
def execLoop (api : AutomationStartRequest → Except String String) (devs : List Device)
    (batch : BatchConfig) (now : Int) (mc dbMs : Nat) :
    BatchState → List String → BatchState × List BatchEv
  | st, [] => (st, [])
  | st, d :: rest' =>
    let wave := d :: rest'.take (mc - 1)
    let rest := rest'.drop (mc - 1)
    let st1 := wave.foldl (runDevice api devs batch now) st
    let res := execLoop api devs batch now mc dbMs st1 rest
    (res.1,
      wave.enum.map (fun p => BatchEv.launch p.2 (p.1 * 5000))
        ++ (if rest.isEmpty then [] else [BatchEv.interWaveWait dbMs]) ++ res.2)
  termination_by _ l => l.length
  decreasing_by simp [List.length_drop]; omega

/-- The `pending` sub-record created per device
(`batch.devices.map(deviceId => ({ deviceId, status: 'pending' }))`). -/
def mkPending (deviceId : String) : SubRecord :=
  { deviceId := deviceId, sessionId := none, status := .pending,
    error := none, startTime := none, endTime := none }

/-- `executeBatch`.  React semantics: the `isExecuting`, `executions` and
`devices` reads inside the handler see the state snapshot of the render that
created the handler (the state at invocation), while every
`setX(prev => ...)` update acts on the current state.  `now` stands for
`Date.now()`.  The second component is the scheduling trace. -/
def executeBatch (api : AutomationStartRequest → Except String String) (now : Int)
    (st : BatchState) (batch : BatchConfig) : BatchState × List BatchEv :=
  if st.isExecuting then (st, [])
  else
    let closureExecutions := st.executions
    let devsSnapshot := st.devices
    let st1 : BatchState := { st with
      isExecuting := true
      batches := st.batches.map (fun b =>
        if b.id = batch.id then { b with status := .running } else b) }
    let execution : BatchExecution :=
      { batchId := batch.id
        sessions := batch.devices.map mkPending
        startTime := now
        endTime := none }
    let st2 : BatchState := { st1 with executions := mapSet batch.id execution st1.executions }
    let maxConcurrent := match batch.schedule with
      | some s => if s.maxConcurrent = 0 then 3 else s.maxConcurrent
      | none => 3
    let delayBetween := (match batch.schedule with
      | some s => if s.delayBetween = 0 then 30 else s.delayBetween
      | none => 30) * 1000
    let res := execLoop api devsSnapshot batch now maxConcurrent delayBetween st2 batch.devices
    let st4 : BatchState := match mapLookup batch.id closureExecutions with
      | none => res.1
      | some finalExecution =>
        let hasErrors := finalExecution.sessions.any (fun s => s.status = .error)
        { res.1 with
          batches := res.1.batches.map (fun b =>
            if b.id = batch.id then
              { b with status := if hasErrors then .error else .completed }
            else b)
          executions := adjustExec batch.id (fun ex => { ex with endTime := some now })
            res.1.executions }
    ({ st4 with isExecuting := false }, res.2)

/-- Derived form used in the correctness proofs: the net effect of one wave
launch on one sub-record — the `running` stamp followed by the terminal
outcome of validation and the start request. -/
def devUpd (api : AutomationStartRequest → Except String String) (devs : List Device)
    (batch : BatchConfig) (now : Int) (d : String) : SubRecord → SubRecord := fun s =>
  let s1 := applyUpdate .running none none now s
  match devs.find? (fun dev => dev.udid = d) with
  | none => applyUpdate .error none (some "Device not available") now s1
  | some dev =>
    if !dev.isAvailable then applyUpdate .error none (some "Device not available") now s1
    else
      match api (mkRequest batch d) with
      | .ok sid => applyUpdate .completed (some sid) none now s1
      | .error msg => applyUpdate .error none (some msg) now s1

/-- Derived form: sequential processing of a device list on a sessions list
(the order in which the sub-record updates land). -/
def procList (api : AutomationStartRequest → Except String String) (devs : List Device)
    (batch : BatchConfig) (now : Int) (R : List String) (sess : List SubRecord) :
    List SubRecord :=
  R.foldl (fun ss d => updateFirst d (devUpd api devs batch now d) ss) sess

/-- Modelled from the spec: partition the device list into consecutive waves
of size `mc`, the last wave possibly smaller. -/
def specWaves (mc : Nat) (l : List String) : List (List String) :=
  if h : mc = 0 ∨ l = [] then []
  else l.take mc :: specWaves mc (l.drop mc)
  termination_by l.length
  decreasing_by
    push_neg at h
    have hl : 0 < l.length := List.length_pos.mpr h.2
    simp [List.length_drop]
    omega

/-- Modelled from the spec: within a wave the device at 0-indexed position `k`
is delayed `k × 5000` ms before its start request. -/
def specWaveEvents (w : List String) : List BatchEv :=
  w.enum.map (fun p => BatchEv.launch p.2 (p.1 * 5000))

/-- Modelled from the spec: waves run strictly in order, with a `delayBetween`
wait between consecutive waves but not after the last. -/
def specTrace (mc dbMs : Nat) (devices : List String) : List BatchEv :=
  (List.intersperse [BatchEv.interWaveWait dbMs] ((specWaves mc devices).map specWaveEvents)).flatten

end BatchOps

/-! ## Properties -/

section MapLemmas

variable {α : Type}

lemma mapLookup_mapSet_self (k : String) (v : α) (m : List (String × α)) :
    mapLookup k (mapSet k v m) = some v := by
  induction m with
  | nil => simp [mapSet, mapLookup]
  | cons p rest ih =>
    obtain ⟨k', v'⟩ := p
    by_cases h : k' = k
    · simp [mapSet, mapLookup, h]
    · simp [mapSet, mapLookup, h, ih]

lemma mapHas_iff (k : String) (m : List (String × α)) :
    mapHas k m = true ↔ k ∈ m.map Prod.fst := by
  induction m with
  | nil => simp [mapHas, mapLookup]
  | cons p rest ih =>
    obtain ⟨k', v'⟩ := p
    by_cases h : k' = k
    · simp [mapHas, mapLookup, h]
    · simp only [mapHas, mapLookup, if_neg h, List.map_cons, List.mem_cons]
      rw [← mapHas]
      rw [ih]
      constructor
      · exact fun hm => Or.inr hm
      · rintro (hk | hm)
        · exact absurd hk.symm h
        · exact hm

lemma keys_mapSet (k : String) (v : α) (m : List (String × α)) :
    (mapSet k v m).map Prod.fst
      = if k ∈ m.map Prod.fst then m.map Prod.fst else m.map Prod.fst ++ [k] := by
  induction m with
  | nil => simp [mapSet]
  | cons p rest ih =>
    obtain ⟨k', v'⟩ := p
    by_cases h : k' = k
    · subst h
      simp [mapSet]
    · simp only [mapSet, if_neg h, List.map_cons, ih, List.mem_cons]
      rcases eq_or_ne k k' with h1 | h1
      · exact absurd h1.symm h
      · by_cases h2 : k ∈ rest.map Prod.fst
        · rw [if_pos h2, if_pos (Or.inr h2)]
        · rw [if_neg h2, if_neg (by rintro (hk | hm); exact h1 hk; exact h2 hm)]
          simp

lemma keys_mapSet_nodup (k : String) (v : α) (m : List (String × α))
    (h : (m.map Prod.fst).Nodup) : ((mapSet k v m).map Prod.fst).Nodup := by
  rw [keys_mapSet]
  by_cases hk : k ∈ m.map Prod.fst
  · rwa [if_pos hk]
  · rw [if_neg hk]
    simp [List.nodup_append, h, hk]

end MapLemmas

namespace LogViewer

lemma recGet_recSet (k k' : String) (v : Nat) (r : List (String × Nat)) :
    recGet k' (recSet k v r) = if k' = k then v else recGet k' r := by
  induction r with
  | nil =>
    simp only [recSet, recGet]
    rcases eq_or_ne k' k with h | h
    · subst h; simp
    · rw [if_neg h.symm, if_neg h]
  | cons p rest ih =>
    obtain ⟨k₀, v₀⟩ := p
    simp only [recSet]
    by_cases h0 : k₀ = k
    · subst h0
      simp only [if_pos rfl, recGet]
      rcases eq_or_ne k' k₀ with h | h
      · subst h; simp
      · rw [if_neg h.symm, if_neg h, if_neg h.symm]
    · rw [if_neg h0]
      simp only [recGet]
      rw [ih]
      rcases eq_or_ne k₀ k' with h1 | h1
      · subst h1
        rw [if_pos rfl, if_neg h0, if_pos rfl]
      · rw [if_neg h1, if_neg h1]

lemma recGet_byLevel_aux (logs : List AutomationLog) (acc : List (String × Nat)) (k : String) :
    recGet k (logs.foldl (fun acc log => recSet log.level (recGet log.level acc + 1) acc) acc)
      = recGet k acc + (logs.filter (fun l => l.level = k)).length := by
  induction logs generalizing acc with
  | nil => simp
  | cons l rest ih =>
    simp only [List.foldl_cons]
    rw [ih, recGet_recSet]
    rcases eq_or_ne l.level k with h | h
    · rw [if_pos h.symm]
      simp [List.filter_cons, h]
      omega
    · rw [if_neg h.symm]
      simp [List.filter_cons, h]

/-- The `byLevel` record counts exactly the logs at each level. -/
lemma recGet_byLevelOf (logs : List AutomationLog) (k : String) :
    recGet k (byLevelOf logs) = (logs.filter (fun l => l.level = k)).length := by
  simpa [byLevelOf, recGet] using recGet_byLevel_aux logs [] k

lemma csvEscape_nil : csvEscape [] = [] := rfl

lemma csvEscape_cons (c : Char) (s : List Char) :
    csvEscape (c :: s) = (if c = '"' then ['"', '"'] else [c]) ++ csvEscape s := by
  simp [csvEscape]

lemma csvEscape_no_quote (s : List Char) (h : ¬ '"' ∈ s) : csvEscape s = s := by
  induction s with
  | nil => rfl
  | cons c t ih =>
    rw [csvEscape_cons, if_neg (fun hc : c = '"' => h (hc ▸ List.mem_cons_self c t)),
      ih (fun ht => h (List.mem_cons_of_mem c ht))]
    rfl

lemma run_quoted_escape (m : List Char) :
    ∀ (cur : List Char) (row : List (List Char)) (acc : List (List (List Char)))
      (s : List Char),
      runCSV .quoted cur row acc (csvEscape m ++ s) = runCSV .quoted (cur ++ m) row acc s := by
  induction m with
  | nil =>
    intro cur row acc s
    simp [csvEscape]
  | cons c m' ih =>
    intro cur row acc s
    by_cases hc : c = '"'
    · subst hc
      have he : csvEscape ('"' :: m') ++ s = '"' :: '"' :: (csvEscape m' ++ s) := by
        rw [csvEscape_cons]
        simp
      rw [he]
      show runCSV .quoted (cur ++ ['"']) row acc (csvEscape m' ++ s) = _
      rw [ih]
      have : (cur ++ ['"']) ++ m' = cur ++ '"' :: m' := by simp
      rw [this]
    · have he : csvEscape (c :: m') ++ s = c :: (csvEscape m' ++ s) := by
        rw [csvEscape_cons, if_neg hc]
        simp
      rw [he]
      simp only [runCSV]
      rw [if_neg hc, ih]
      have : (cur ++ [c]) ++ m' = cur ++ c :: m' := by simp
      rw [this]

lemma run_close_comma (cur : List Char) (row : List (List Char))
    (acc : List (List (List Char))) (s : List Char) :
    runCSV .quoted cur row acc ('"' :: ',' :: s) = runCSV .plain [] (row ++ [cur]) acc s := rfl

lemma run_close_newline (cur : List Char) (row : List (List Char))
    (acc : List (List (List Char))) (s : List Char) :
    runCSV .quoted cur row acc ('"' :: '\n' :: s)
      = runCSV .plain [] [] (acc ++ [row ++ [cur]]) s := rfl

lemma run_close_eof (cur : List Char) (row : List (List Char))
    (acc : List (List (List Char))) (h : row ≠ []) :
    runCSV .quoted cur row acc ['"'] = acc ++ [row ++ [cur]] := by
  show (if cur.isEmpty ∧ row.isEmpty then acc else acc ++ [row ++ [cur]]) = _
  rw [if_neg]
  simp [h]

lemma run_open_quote (row : List (List Char)) (acc : List (List (List Char)))
    (s : List Char) :
    runCSV .plain [] row acc ('"' :: s) = runCSV .quoted [] row acc s := rfl

lemma run_cell (m : List Char) (row : List (List Char)) (acc : List (List (List Char)))
    (s : List Char) :
    runCSV .plain [] row acc ('"' :: (csvEscape m ++ '"' :: ',' :: s))
      = runCSV .plain [] (row ++ [m]) acc s := by
  rw [run_open_quote, run_quoted_escape, run_close_comma]
  simp

lemma run_cell_last_nl (m : List Char) (row : List (List Char))
    (acc : List (List (List Char))) (s : List Char) :
    runCSV .plain [] row acc ('"' :: (csvEscape m ++ '"' :: '\n' :: s))
      = runCSV .plain [] [] (acc ++ [row ++ [m]]) s := by
  rw [run_open_quote, run_quoted_escape, run_close_newline]
  simp

lemma run_cell_last_eof (m : List Char) (row : List (List Char))
    (acc : List (List (List Char))) (h : row ≠ []) :
    runCSV .plain [] row acc ('"' :: (csvEscape m ++ ['"'])) = acc ++ [row ++ [m]] := by
  rw [run_open_quote, run_quoted_escape, run_close_eof _ _ _ h]
  simp

lemma run_plain_comma (cur : List Char) (row : List (List Char))
    (acc : List (List (List Char))) (s : List Char) :
    runCSV .plain cur row acc (',' :: s) = runCSV .plain [] (row ++ [cur]) acc s := rfl

lemma run_plain_newline (cur : List Char) (row : List (List Char))
    (acc : List (List (List Char))) (s : List Char) :
    runCSV .plain cur row acc ('\n' :: s) = runCSV .plain [] [] (acc ++ [row ++ [cur]]) s := rfl

lemma run_plain_chars :
    ∀ (p : List Char), (∀ c ∈ p, ¬ c = ',' ∧ ¬ c = '\n' ∧ ¬ c = '"') →
    ∀ (cur : List Char) (row : List (List Char)) (acc : List (List (List Char)))
      (s : List Char),
      runCSV .plain cur row acc (p ++ s) = runCSV .plain (cur ++ p) row acc s := by
  intro p
  induction p with
  | nil => intro _ cur row acc s; simp
  | cons c p' ih =>
    intro hp cur row acc s
    have hc := hp c (List.mem_cons_self c p')
    have hp' : ∀ c' ∈ p', ¬ c' = ',' ∧ ¬ c' = '\n' ∧ ¬ c' = '"' :=
      fun c' hm => hp c' (List.mem_cons_of_mem _ hm)
    show runCSV .plain cur row acc (c :: (p' ++ s)) = _
    simp only [runCSV]
    rw [if_neg hc.1, if_neg hc.2.1, if_neg (fun hq => hc.2.2 hq.1)]
    rw [ih hp' (cur ++ [c])]
    have : (cur ++ [c]) ++ p' = cur ++ c :: p' := by simp
    rw [this]

lemma run_row_nl (l : AutomationLog) (hts : ¬ '"' ∈ l.timestamp.toList)
    (hlvl : ¬ '"' ∈ l.level.toList) (acc : List (List (List Char))) (s : List Char) :
    runCSV .plain [] [] acc (csvLine l ++ '\n' :: s)
      = runCSV .plain [] [] (acc ++ [cells l]) s := by
  simp only [csvLine, List.append_assoc, List.cons_append, List.singleton_append,
    List.nil_append]
  rw [← csvEscape_no_quote _ hts, ← csvEscape_no_quote _ hlvl]
  rw [run_cell, run_cell, run_cell, run_cell_last_nl]
  simp [cells]

lemma run_row_eof (l : AutomationLog) (hts : ¬ '"' ∈ l.timestamp.toList)
    (hlvl : ¬ '"' ∈ l.level.toList) (acc : List (List (List Char))) :
    runCSV .plain [] [] acc (csvLine l) = acc ++ [cells l] := by
  simp only [csvLine, List.append_assoc, List.cons_append, List.singleton_append,
    List.nil_append]
  rw [← csvEscape_no_quote _ hts, ← csvEscape_no_quote _ hlvl]
  rw [run_cell, run_cell, run_cell, run_cell_last_eof]
  · simp [cells]
  · simp

lemma intercalate_cons2 (sep x y : List Char) (t : List (List Char)) :
    List.intercalate sep (x :: y :: t) = x ++ sep ++ List.intercalate sep (y :: t) := by
  rw [List.intercalate, List.intercalate]
  rw [show List.intersperse sep (x :: y :: t) = x :: sep :: List.intersperse sep (y :: t)
    from rfl]
  simp

lemma run_rows :
    ∀ (logs : List AutomationLog),
    (∀ l ∈ logs, ¬ '"' ∈ l.timestamp.toList ∧ ¬ '"' ∈ l.level.toList) →
    ∀ (acc : List (List (List Char))),
      runCSV .plain [] [] acc (List.intercalate ['\n'] (logs.map csvLine))
        = acc ++ logs.map cells := by
  intro logs
  induction logs with
  | nil =>
    intro _ acc
    show runCSV .plain [] [] acc (List.intercalate ['\n'] []) = acc ++ []
    rw [show List.intercalate ['\n'] ([] : List (List Char)) = [] from rfl]
    show (if (List.isEmpty [] ∧ List.isEmpty []) then acc else acc ++ [[] ++ [[]]]) = acc ++ []
    simp
  | cons l ls ih =>
    intro h acc
    have hl := h l (List.mem_cons_self l ls)
    rcases ls with _ | ⟨l2, ls2⟩
    · rw [show ([l] : List AutomationLog).map csvLine = [csvLine l] from rfl]
      rw [show List.intercalate ['\n'] [csvLine l] = csvLine l from by
        simp [List.intercalate]]
      rw [run_row_eof l hl.1 hl.2]
      simp
    · have hrest : ∀ l' ∈ l2 :: ls2, ¬ '"' ∈ l'.timestamp.toList ∧ ¬ '"' ∈ l'.level.toList :=
        fun l' hm => h l' (List.mem_cons_of_mem _ hm)
      rw [show (l :: l2 :: ls2).map csvLine = csvLine l :: csvLine l2 :: ls2.map csvLine
        from rfl]
      rw [intercalate_cons2]
      rw [show csvLine l ++ ['\n'] ++ List.intercalate ['\n'] (csvLine l2 :: ls2.map csvLine)
          = csvLine l ++ '\n' :: List.intercalate ['\n'] (csvLine l2 :: ls2.map csvLine)
        from by simp]
      rw [show (csvLine l2 :: ls2.map csvLine) = (l2 :: ls2).map csvLine from rfl]
      rw [run_row_nl l hl.1 hl.2]
      rw [ih hrest (acc ++ [cells l])]
      simp

lemma run_header (s : List Char) :
    runCSV .plain [] [] [] (csvHeader ++ s) = runCSV .plain [] [] [headerCells] s := by
  have hH : csvHeader ++ s
      = "Timestamp".toList ++ ',' :: ("Level".toList ++ ',' ::
        ("Message".toList ++ ',' :: ("Data".toList ++ '\n' :: s))) := by
    rw [show csvHeader = "Timestamp".toList ++ ',' :: ("Level".toList ++ ',' ::
      ("Message".toList ++ ',' :: ("Data".toList ++ ['\n']))) from by decide]
    simp
  rw [hH, run_plain_chars "Timestamp".toList (by decide), run_plain_comma,
    run_plain_chars "Level".toList (by decide), run_plain_comma,
    run_plain_chars "Message".toList (by decide), run_plain_comma,
    run_plain_chars "Data".toList (by decide), run_plain_newline]
  simp [headerCells]

/-- C6 counterexample: on a single error log the statistics engine reports an
error rate of `100` (a percentage), not the plain ratio `1/1` the claim
asserts. -/
theorem stats_errorRate_counterexample :
    (stats (fun _ => 0) [{ timestamp := "t", level := "error", message := "boom", data := "d" }]).errorRate
      ≠ ((([{ timestamp := "t", level := "error", message := "boom", data := "d" }] :
            List AutomationLog).filter (fun l => l.level = "error")).length : ℚ)
          / (([{ timestamp := "t", level := "error", message := "boom", data := "d" }] :
            List AutomationLog).length : ℚ) := by
  have h : (stats (fun _ => 0)
      [{ timestamp := "t", level := "error", message := "boom", data := "d" }]).errorRate = 100 := by
    simp [stats, byLevelOf, recGet, recSet]
  rw [h]
  norm_num

/-- C6 (amended): the error rate is the error fraction expressed as a
percentage — `(error-count / total) * 100` — and `0` when the total is `0`
(no division by zero); on the empty log list the engine returns
`total = 0`, `errorRate = 0`, `avgLogsPerMinute = 0` (and an empty `byLevel`). -/
theorem stats_errorRate_spec (getTime : String → Int) (logs : List AutomationLog) :
    (stats getTime logs).errorRate
        = (if logs.length = 0 then 0
           else (((logs.filter (fun l => l.level = "error")).length : ℚ) / (logs.length : ℚ)) * 100)
      ∧ stats getTime [] = { total := 0, byLevel := [], errorRate := 0, avgLogsPerMinute := 0 } := by
  constructor
  · show (if logs.length > 0 then
        ((recGet "error" (byLevelOf logs) : ℚ) / (logs.length : ℚ)) * 100 else 0) = _
    rw [recGet_byLevelOf]
    rcases Nat.eq_zero_or_pos logs.length with h | h
    · rw [if_neg (by omega), if_pos h]
    · rw [if_pos h, if_neg (by omega)]
  · rfl

/-- C7 counterexample: the export quotes every field but only the message and
data fields pass through the quote-doubling replace, so a log whose timestamp
contains a double quote mis-parses — parsing the export does not reproduce the
(timestamp, level, message) triples as the claim states.  For the log with
timestamp `a","b`, a standard CSV parse of the export yields a second row whose
first three cells are `a`, `b` and `error`, not the log's triple. -/
theorem exportLogs_csv_counterexample :
    (parseCSV (exportCsv [⟨"a\",\"b", "error", "m", "d"⟩])).map (List.take 3)
      ≠ [headerCells.take 3, (cells ⟨"a\",\"b", "error", "m", "d"⟩).take 3] := by
  decide

/-- C7 (amended): for every log list whose timestamps and levels contain no
double quote (messages and data are unrestricted — they are quote-doubled by
the export), parsing the CSV export yields exactly the header record followed
by one record per log carrying its four fields, hence reproducing every
(timestamp, level, message) triple; and the Scenario D log with message
`boom "quoted"` exports to the row
`"T","error","boom ""quoted""",""`. -/
theorem exportLogs_csv_roundtrip (logs : List AutomationLog)
    (h : ∀ l ∈ logs, ¬ '"' ∈ l.timestamp.toList ∧ ¬ '"' ∈ l.level.toList) :
    parseCSV (exportCsv logs) = headerCells :: logs.map cells
    ∧ csvLine ⟨"T", "error", "boom \"quoted\"", ""⟩
        = "\"T\",\"error\",\"boom \"\"quoted\"\"\",\"\"".toList := by
  constructor
  · show runCSV .plain [] [] [] (csvHeader ++ List.intercalate ['\n'] (logs.map csvLine)) = _
    rw [run_header, run_rows logs h [headerCells]]
    simp
  · decide

/-- Witness for the C7 round trip at a one-log list whose message holds an
embedded quote and a comma. -/
theorem exportLogs_csv_roundtrip_witness :
    (∀ l ∈ ([⟨"T1", "error", "boom \"q\", x", "d"⟩] : List AutomationLog),
        ¬ '"' ∈ l.timestamp.toList ∧ ¬ '"' ∈ l.level.toList)
    ∧ (parseCSV (exportCsv [⟨"T1", "error", "boom \"q\", x", "d"⟩])
          = headerCells :: ([⟨"T1", "error", "boom \"q\", x", "d"⟩] : List AutomationLog).map cells
        ∧ csvLine ⟨"T", "error", "boom \"quoted\"", ""⟩
          = "\"T\",\"error\",\"boom \"\"quoted\"\"\",\"\"".toList) :=
  ⟨by decide, exportLogs_csv_roundtrip [⟨"T1", "error", "boom \"q\", x", "d"⟩] (by decide)⟩

end LogViewer

namespace Compare

/-- C10: when a session has no start timestamp, `calculateMetrics` uses epoch
`0` as the start, so the reported duration is the end timestamp (or the
current time) in seconds since the epoch. -/
theorem calculateMetrics_no_start_duration (now : Int) (s : AutomationSession)
    (logs : List AutomationLog) (h : s.startTime = none) :
    (calculateMetrics now s logs).duration
      = ((match s.endTime with | some e => e | none => now : Int) : ℚ) / 1000 := by
  simp [calculateMetrics, h]

/-- Witness for C10 at a concrete session with no start time and end time
4000 ms: the duration is `4` seconds — the end timestamp as an epoch offset. -/
theorem calculateMetrics_no_start_duration_witness :
    ({ id := "a", startTime := none, endTime := some 4000, checkpoint := none } :
        AutomationSession).startTime = none
      ∧ (calculateMetrics 99999
            { id := "a", startTime := none, endTime := some 4000, checkpoint := none }
            []).duration = (4000 : ℚ) / 1000 :=
  ⟨rfl, calculateMetrics_no_start_duration 99999
      { id := "a", startTime := none, endTime := some 4000, checkpoint := none } [] rfl⟩

lemma find?_congr' {α : Type} (p q : α → Bool) (l : List α) (h : ∀ x ∈ l, p x = q x) :
    l.find? p = l.find? q := by
  induction l with
  | nil => rfl
  | cons a t ih =>
    have ha := h a (List.mem_cons_self a t)
    by_cases hp : p a = true
    · rw [List.find?_cons_of_pos _ hp, List.find?_cons_of_pos _ (ha ▸ hp)]
    · rw [List.find?_cons_of_neg _ hp, List.find?_cons_of_neg _ (by rw [← ha]; exact hp),
        ih (fun x hx => h x (List.mem_cons_of_mem a hx))]

lemma beats_irrefl (dir : Dir) (v : ℚ) : beats dir v v = false := by
  cases dir <;> simp [beats]

lemma beats_trans (dir : Dir) (a b c : ℚ) (h1 : beats dir a b = true)
    (h2 : beats dir b c = true) : beats dir a c = true := by
  cases dir <;> simp [beats] at * <;> linarith

lemma beats_trans2 (dir : Dir) (a b c : ℚ) (h1 : beats dir b a = false)
    (h2 : beats dir b c = true) : beats dir a c = true := by
  cases dir <;> simp [beats] at * <;> linarith

lemma beats_total (dir : Dir) (a b : ℚ) (h1 : beats dir a b = false)
    (h2 : beats dir b a = false) : a = b := by
  cases dir <;> simp [beats] at * <;> linarith

lemma foldl_gStep (r : ℚ → ℚ → Bool)
    (hirr : ∀ v, r v v = false)
    (htrans : ∀ a b c, r a b = true → r b c = true → r a c = true)
    (htrans2 : ∀ a b c, r b a = false → r b c = true → r a c = true)
    (htotal : ∀ a b, r a b = false → r b a = false → a = b) :
    ∀ (xs : List (String × ℚ)) (bv : ℚ) (bid : String),
      some ((xs.foldl (gStep r) (some bv, bid)).2)
        = (((bid, bv) :: xs).find? (gUnbeaten r ((bid, bv) :: xs))).map Prod.fst := by
  intro xs
  induction xs with
  | nil =>
    intro bv bid
    rw [List.find?_cons_of_pos _ (by simp [gUnbeaten, hirr])]
    rfl
  | cons y ys ih =>
    intro bv bid
    rw [List.foldl_cons]
    by_cases hbeat : r y.2 bv = true
    · have hg : gStep r (some bv, bid) y = (some y.2, y.1) := by
        simp [gStep, hbeat]
      rw [hg, ih y.2 y.1]
      have hc : ¬ gUnbeaten r ((bid, bv) :: y :: ys) (bid, bv) = true := by
        simp only [gUnbeaten, List.all_cons, Bool.and_eq_true]
        intro hx
        rw [hbeat] at hx
        exact absurd hx.2.1 (by simp)
      rw [List.find?_cons_of_neg (y :: ys) hc]
      refine congrArg (Option.map Prod.fst) (find?_congr' _ _ _ ?_)
      intro x hx
      show gUnbeaten r (y :: ys) x = gUnbeaten r ((bid, bv) :: y :: ys) x
      cases hsmall : gUnbeaten r (y :: ys) x with
      | true =>
        have hyx : r y.2 x.2 = false := by
          have h1 := hsmall
          simp only [gUnbeaten, List.all_cons, Bool.and_eq_true] at h1
          simpa using h1.1
        have hbvx : r bv x.2 = false := by
          cases hbx : r bv x.2 with
          | false => rfl
          | true => exact absurd (htrans y.2 bv x.2 hbeat hbx) (by simp [hyx])
        simp only [gUnbeaten, List.all_cons] at hsmall ⊢
        rw [hsmall, hbvx]
        rfl
      | false =>
        simp only [gUnbeaten, List.all_cons] at hsmall ⊢
        rw [hsmall, Bool.and_false]
    · have hbf : r y.2 bv = false := by simpa using hbeat
      have hg : gStep r (some bv, bid) y = (some bv, bid) := by
        simp [gStep, hbf]
      rw [hg, ih bv bid]
      by_cases hcp : gUnbeaten r ((bid, bv) :: ys) (bid, bv) = true
      · have hcbig : gUnbeaten r ((bid, bv) :: y :: ys) (bid, bv) = true := by
          simp only [gUnbeaten, List.all_cons, Bool.and_eq_true] at hcp ⊢
          exact ⟨hcp.1, by simp [hbf], hcp.2⟩
        rw [List.find?_cons_of_pos _ hcp, List.find?_cons_of_pos _ hcbig]
      · have hall : ys.all (fun q => !(r q.2 bv)) = false := by
          cases hys : ys.all (fun q => !(r q.2 bv)) with
          | false => rfl
          | true =>
            exact absurd (by
              simp only [gUnbeaten, List.all_cons]
              rw [hirr, hys]
              rfl) hcp
        have hcbigF : ¬ gUnbeaten r ((bid, bv) :: y :: ys) (bid, bv) = true := by
          simp only [gUnbeaten, List.all_cons]
          rw [hall, Bool.and_false, Bool.and_false]
          simp
        have hybigF : ¬ gUnbeaten r ((bid, bv) :: y :: ys) y = true := by
          simp only [gUnbeaten, List.all_cons, Bool.and_eq_true]
          intro hy
          have hbvy : r bv y.2 = false := by simpa using hy.1
          have heq : bv = y.2 := htotal bv y.2 hbvy hbf
          rw [← heq] at hy
          rw [hy.2.2] at hall
          exact absurd hall (by simp)
        have hcmidF : ¬ gUnbeaten r ((bid, bv) :: ys) (bid, bv) = true := hcp
        rw [List.find?_cons_of_neg ys hcmidF, List.find?_cons_of_neg (y :: ys) hcbigF,
          List.find?_cons_of_neg ys hybigF]
        refine congrArg (Option.map Prod.fst) (find?_congr' _ _ _ ?_)
        intro x hx
        show gUnbeaten r ((bid, bv) :: ys) x = gUnbeaten r ((bid, bv) :: y :: ys) x
        cases hyx : r y.2 x.2 with
        | false =>
          simp only [gUnbeaten, List.all_cons]
          rw [hyx]
          rfl
        | true =>
          have hbvx : r bv x.2 = true := htrans2 bv y.2 x.2 hbf hyx
          simp only [gUnbeaten, List.all_cons]
          rw [hbvx]
          rfl

lemma bwStep_best (dir : Dir) (st : BW) (p : String × ℚ) :
    ((bwStep dir st p).bestValue, (bwStep dir st p).bestId)
      = gStep (beats dir) (st.bestValue, st.bestId) p := by
  obtain ⟨bv, bid, wv, wid⟩ := st
  cases bv with
  | none =>
    cases wv with
    | none => rfl
    | some w =>
      unfold bwStep gStep
      dsimp only []
      split_ifs <;> rfl
  | some b =>
    cases wv with
    | none =>
      unfold bwStep gStep
      dsimp only []
      split_ifs <;> rfl
    | some w =>
      unfold bwStep gStep
      dsimp only []
      by_cases hb : beats dir p.2 b = true
      · rw [if_pos hb, if_pos hb]
        dsimp only []
        split_ifs <;> rfl
      · rw [if_neg hb, if_neg hb]
        dsimp only []
        split_ifs <;> rfl

lemma bwStep_worst (dir : Dir) (st : BW) (p : String × ℚ) :
    ((bwStep dir st p).worstValue, (bwStep dir st p).worstId)
      = gStep (beats dir.opp) (st.worstValue, st.worstId) p := by
  obtain ⟨bv, bid, wv, wid⟩ := st
  cases bv with
  | none =>
    cases wv with
    | none => rfl
    | some w =>
      unfold bwStep gStep
      dsimp only []
      split_ifs <;> rfl
  | some b =>
    cases wv with
    | none =>
      unfold bwStep gStep
      dsimp only []
      split_ifs <;> rfl
    | some w =>
      unfold bwStep gStep
      dsimp only []
      by_cases hb : beats dir p.2 b = true
      · rw [if_pos hb]
        dsimp only []
        split_ifs <;> rfl
      · rw [if_neg hb]
        dsimp only []
        split_ifs <;> rfl

lemma foldl_bwStep_best (dir : Dir) (l : List (String × ℚ)) : ∀ st : BW,
    ((l.foldl (bwStep dir) st).bestValue, (l.foldl (bwStep dir) st).bestId)
      = l.foldl (gStep (beats dir)) (st.bestValue, st.bestId) := by
  induction l with
  | nil => intro st; rfl
  | cons p t ih =>
    intro st
    rw [List.foldl_cons, List.foldl_cons, ih, bwStep_best]

lemma foldl_bwStep_worst (dir : Dir) (l : List (String × ℚ)) : ∀ st : BW,
    ((l.foldl (bwStep dir) st).worstValue, (l.foldl (bwStep dir) st).worstId)
      = l.foldl (gStep (beats dir.opp)) (st.worstValue, st.worstId) := by
  induction l with
  | nil => intro st; rfl
  | cons p t ih =>
    intro st
    rw [List.foldl_cons, List.foldl_cons, ih, bwStep_worst]

lemma analyzeMetric_spec (dir : Dir) (vals : List (String × ℚ)) (h : vals ≠ []) :
    some (analyzeMetric dir vals).1 = specBest dir vals
    ∧ some (analyzeMetric dir vals).2 = specWorst dir vals := by
  obtain ⟨x, xs, rfl⟩ := List.exists_cons_of_ne_nil h
  constructor
  · have h1 := foldl_bwStep_best dir (x :: xs)
      { bestValue := none, bestId := "", worstValue := none, worstId := "" }
    have h2 : ((x :: xs).foldl (bwStep dir)
        { bestValue := none, bestId := "", worstValue := none, worstId := "" }).bestId
          = (xs.foldl (gStep (beats dir)) (some x.2, x.1)).2 := congrArg Prod.snd h1
    show some (((x :: xs).foldl (bwStep dir)
        { bestValue := none, bestId := "", worstValue := none, worstId := "" }).bestId) = _
    rw [h2, foldl_gStep (beats dir) (beats_irrefl dir) (beats_trans dir) (beats_trans2 dir)
      (beats_total dir) xs x.2 x.1]
    rfl
  · have h1 := foldl_bwStep_worst dir (x :: xs)
      { bestValue := none, bestId := "", worstValue := none, worstId := "" }
    have h2 : ((x :: xs).foldl (bwStep dir)
        { bestValue := none, bestId := "", worstValue := none, worstId := "" }).worstId
          = (xs.foldl (gStep (beats dir.opp)) (some x.2, x.1)).2 := congrArg Prod.snd h1
    show some (((x :: xs).foldl (bwStep dir)
        { bestValue := none, bestId := "", worstValue := none, worstId := "" }).worstId) = _
    rw [h2, foldl_gStep (beats dir.opp) (beats_irrefl dir.opp) (beats_trans dir.opp)
      (beats_trans2 dir.opp) (beats_total dir.opp) xs x.2 x.1]
    rfl

/-- C8: for every non-empty compared-session collection, `metricAnalysis`
reports per metric as best the session whose value is extremal in that
metric's better direction (`betterWhen`, lower for totals/errors/warnings/
duration/error-rate and higher for checkpoints) and as worst the opposite
extreme, ties resolved in favour of the first session in insertion order. -/
theorem metricAnalysis_best_worst (sessions : List (String × SessionMetrics))
    (h : sessions ≠ []) :
    metricAnalysis sessions = comparisonMetrics.map (fun m =>
      (m.1, ((specBest m.2 (sessions.map (fun p => (p.1, p.2.val m.1)))).getD "",
             (specWorst m.2 (sessions.map (fun p => (p.1, p.2.val m.1)))).getD ""))) := by
  unfold metricAnalysis
  refine List.map_congr_left ?_
  intro m hm
  have hv : sessions.map (fun p => (p.1, p.2.val m.1)) ≠ [] := by
    simpa using h
  obtain ⟨hb, hw⟩ := analyzeMetric_spec m.2 (sessions.map (fun p => (p.1, p.2.val m.1))) hv
  rw [← hb, ← hw]
  rfl

/-- Witness for C8, Scenario C: session A with 2 errors out of 10 logs and
session B with 0 errors out of 10 — for the `errorCount` metric the best is B
and the worst is A, and the full analysis matches the spec reading. -/
theorem metricAnalysis_best_worst_witness :
    ([("A", ⟨10, 2, 0, 0, 0, 0, 0, []⟩), ("B", ⟨10, 0, 0, 0, 0, 0, 0, []⟩)] :
        List (String × SessionMetrics)) ≠ []
    ∧ metricAnalysis [("A", ⟨10, 2, 0, 0, 0, 0, 0, []⟩), ("B", ⟨10, 0, 0, 0, 0, 0, 0, []⟩)]
        = comparisonMetrics.map (fun m =>
            (m.1,
              ((specBest m.2 (([("A", ⟨10, 2, 0, 0, 0, 0, 0, []⟩),
                  ("B", ⟨10, 0, 0, 0, 0, 0, 0, []⟩)] :
                  List (String × SessionMetrics)).map (fun p => (p.1, p.2.val m.1)))).getD "",
               (specWorst m.2 (([("A", ⟨10, 2, 0, 0, 0, 0, 0, []⟩),
                  ("B", ⟨10, 0, 0, 0, 0, 0, 0, []⟩)] :
                  List (String × SessionMetrics)).map (fun p => (p.1, p.2.val m.1)))).getD "")))
    ∧ (MetricKey.errorCount, ("B", "A")) ∈ metricAnalysis
        [("A", ⟨10, 2, 0, 0, 0, 0, 0, []⟩), ("B", ⟨10, 0, 0, 0, 0, 0, 0, []⟩)] :=
  ⟨by simp,
   metricAnalysis_best_worst
     [("A", ⟨10, 2, 0, 0, 0, 0, 0, []⟩), ("B", ⟨10, 0, 0, 0, 0, 0, 0, []⟩)] (by simp),
   by decide⟩

/-- C9: adding a session already in the comparison set is a no-op at the
public interface — the collection is unchanged and no log fetch is issued —
and adding never introduces a duplicate session id. -/
theorem addSessionToCompare_idempotent (api : String → Except String (List AutomationLog))
    (now : Int) (st : List (String × SessionData)) (s : AutomationSession) :
    (s.id ∈ st.map Prod.fst → addSessionToCompare api now st s = (st, []))
      ∧ ((st.map Prod.fst).Nodup → ((addSessionToCompare api now st s).1.map Prod.fst).Nodup) := by
  constructor
  · intro h
    rw [addSessionToCompare, if_pos ((mapHas_iff s.id st).mpr h)]
  · intro h
    rw [addSessionToCompare]
    by_cases hh : mapHas s.id st = true
    · rw [if_pos hh]
      exact h
    · rw [if_neg hh]
      cases api s.id with
      | ok logs => exact keys_mapSet_nodup _ _ _ h
      | error e => exact h

/-- Witness for C9: re-adding the already-present session `"a"` leaves the
one-entry collection unchanged, issues no fetch, and its key set stays
duplicate-free. -/
theorem addSessionToCompare_idempotent_witness :
    (addSessionToCompare (fun _ => .error "down") 0
        [("a", { session := { id := "a", startTime := none, endTime := none, checkpoint := none },
                 logs := [],
                 metrics := calculateMetrics 0
                   { id := "a", startTime := none, endTime := none, checkpoint := none } [] })]
        { id := "a", startTime := none, endTime := none, checkpoint := none }
      = ([("a", { session := { id := "a", startTime := none, endTime := none, checkpoint := none },
                  logs := [],
                  metrics := calculateMetrics 0
                    { id := "a", startTime := none, endTime := none, checkpoint := none } [] })], []))
    ∧ ((addSessionToCompare (fun _ => .error "down") 0
        [("a", { session := { id := "a", startTime := none, endTime := none, checkpoint := none },
                 logs := [],
                 metrics := calculateMetrics 0
                   { id := "a", startTime := none, endTime := none, checkpoint := none } [] })]
        { id := "a", startTime := none, endTime := none, checkpoint := none }).1.map Prod.fst).Nodup :=
  ⟨(addSessionToCompare_idempotent _ 0 _ _).1 (by simp),
   (addSessionToCompare_idempotent _ 0 _ _).2 (by simp)⟩

end Compare

namespace MultiLog

/-- C5 counterexample: a session already monitored with an accumulated log
buffer and `isPaused := true` is *replaced* by a fresh initial entry when
added again — the existing entry is not preserved, refuting the no-op claim. -/
theorem addSession_not_noop :
    mapLookup "s1"
        (addSession 0
          [("s1", { session := { id := "s1", status := some "running", state := none,
                                 checkpoint := none, currentCheckpoint := none },
                    logs := [{ timestamp := "t", level := "info", message := "m", data := "d" }],
                    isLoading := false, error := none, isPaused := true, autoScroll := true,
                    searchTerm := "abc", logLevel := "error", lastUpdate := 5 })]
          { id := "s1", status := some "running", state := none,
            checkpoint := none, currentCheckpoint := none })
      ≠ some { session := { id := "s1", status := some "running", state := none,
                            checkpoint := none, currentCheckpoint := none },
               logs := [{ timestamp := "t", level := "info", message := "m", data := "d" }],
               isLoading := false, error := none, isPaused := true, autoScroll := true,
               searchTerm := "abc", logLevel := "error", lastUpdate := 5 } := by
  simp [addSession, normalizeSession, mapSet, mapLookup, initialEntry]

/-- C5 (amended): `addSession` keys the registry by session id, so adding
twice yields exactly one entry for the id (the key set gains the id at most
once); but a re-add *overwrites*: after any `addSession` the stored entry is
the fresh initial entry (empty log buffer, default per-entry settings), not
the previously accumulated one. -/
theorem addSession_overwrites (now : Int) (st : List (String × LogSession)) (s : MSession) :
    mapLookup s.id (addSession now st s) = some (initialEntry now (normalizeSession s))
      ∧ (addSession now st s).map Prod.fst
          = (if s.id ∈ st.map Prod.fst then st.map Prod.fst else st.map Prod.fst ++ [s.id]) := by
  have hid : (normalizeSession s).id = s.id := rfl
  constructor
  · rw [addSession, ← hid, mapLookup_mapSet_self]
  · rw [addSession, keys_mapSet, hid]

end MultiLog

namespace BatchOps

lemma applyUpdate_deviceId (status : SubStatus) (sid err : Option String) (now : Int)
    (s : SubRecord) : (applyUpdate status sid err now s).deviceId = s.deviceId := rfl

lemma devUpd_deviceId (api : AutomationStartRequest → Except String String)
    (devs : List Device) (batch : BatchConfig) (now : Int) (d : String) (s : SubRecord) :
    (devUpd api devs batch now d s).deviceId = s.deviceId := by
  simp only [devUpd]
  cases devs.find? (fun dev => dev.udid = d) with
  | none => rfl
  | some dev =>
    cases hav : dev.isAvailable
    · simp [hav]
      rfl
    · simp only [hav, Bool.not_true, Bool.false_eq_true, if_false]
      cases api (mkRequest batch d) with
      | ok sid => rfl
      | error msg => rfl

lemma devUpd_terminal (api : AutomationStartRequest → Except String String)
    (devs : List Device) (batch : BatchConfig) (now : Int) (d : String) (s : SubRecord) :
    (devUpd api devs batch now d s).status = .completed
      ∨ (devUpd api devs batch now d s).status = .error := by
  simp only [devUpd]
  cases devs.find? (fun dev => dev.udid = d) with
  | none => exact Or.inr rfl
  | some dev =>
    cases hav : dev.isAvailable
    · simp [hav]
      exact Or.inr rfl
    · simp only [hav, Bool.not_true, Bool.false_eq_true, if_false]
      cases api (mkRequest batch d) with
      | ok sid => exact Or.inl rfl
      | error msg => exact Or.inr rfl

lemma updateFirst_length (d : String) (f : SubRecord → SubRecord) (l : List SubRecord) :
    (updateFirst d f l).length = l.length := by
  induction l with
  | nil => rfl
  | cons s rest ih =>
    simp only [updateFirst]
    by_cases h : s.deviceId = d
    · rw [if_pos h]
      simp
    · rw [if_neg h]
      simp [ih]

lemma updateFirst_ids (d : String) (f : SubRecord → SubRecord)
    (hf : ∀ s, (f s).deviceId = s.deviceId) (l : List SubRecord) :
    (updateFirst d f l).map SubRecord.deviceId = l.map SubRecord.deviceId := by
  induction l with
  | nil => rfl
  | cons s rest ih =>
    simp only [updateFirst]
    by_cases h : s.deviceId = d
    · rw [if_pos h]
      simp [hf]
    · rw [if_neg h]
      simp [ih]

lemma updateFirst_comp (d : String) (f g : SubRecord → SubRecord)
    (hf : ∀ s, (f s).deviceId = s.deviceId) (l : List SubRecord) :
    updateFirst d g (updateFirst d f l) = updateFirst d (fun s => g (f s)) l := by
  induction l with
  | nil => rfl
  | cons s rest ih =>
    simp only [updateFirst]
    by_cases h : s.deviceId = d
    · rw [if_pos h]
      simp only [updateFirst, hf s, if_pos h]
    · rw [if_neg h]
      simp only [updateFirst, if_neg h, ih]

lemma find?_updateFirst_self (d : String) (f : SubRecord → SubRecord)
    (hf : ∀ s, (f s).deviceId = s.deviceId) (l : List SubRecord) :
    (updateFirst d f l).find? (fun r => r.deviceId = d)
      = (l.find? (fun r => r.deviceId = d)).map f := by
  induction l with
  | nil => rfl
  | cons s rest ih =>
    simp only [updateFirst]
    by_cases h : s.deviceId = d
    · rw [if_pos h]
      rw [List.find?_cons_of_pos _ (by simp [hf s, h]),
          List.find?_cons_of_pos _ (by simp [h])]
      rfl
    · rw [if_neg h]
      rw [List.find?_cons_of_neg _ (by simp [h]), List.find?_cons_of_neg _ (by simp [h]), ih]

lemma find?_updateFirst_ne (d d' : String) (f : SubRecord → SubRecord)
    (hf : ∀ s, (f s).deviceId = s.deviceId) (hne : d ≠ d') (l : List SubRecord) :
    (updateFirst d f l).find? (fun r => r.deviceId = d')
      = l.find? (fun r => r.deviceId = d') := by
  induction l with
  | nil => rfl
  | cons s rest ih =>
    simp only [updateFirst]
    by_cases h : s.deviceId = d
    · rw [if_pos h]
      rw [List.find?_cons_of_neg _ (by simp [hf s, h]; exact hne),
          List.find?_cons_of_neg _ (by simp [h]; exact hne)]
    · rw [if_neg h]
      by_cases h' : s.deviceId = d'
      · rw [List.find?_cons_of_pos _ (by simp [h']), List.find?_cons_of_pos _ (by simp [h'])]
      · rw [List.find?_cons_of_neg _ (by simp [h']), List.find?_cons_of_neg _ (by simp [h']), ih]

section ProcList

variable (api : AutomationStartRequest → Except String String) (devs : List Device)
variable (batch : BatchConfig) (now : Int)

lemma procList_nil (sess : List SubRecord) : procList api devs batch now [] sess = sess := rfl

lemma procList_cons (d : String) (R : List String) (sess : List SubRecord) :
    procList api devs batch now (d :: R) sess
      = procList api devs batch now R (updateFirst d (devUpd api devs batch now d) sess) := rfl

lemma procList_append (R₁ R₂ : List String) (sess : List SubRecord) :
    procList api devs batch now (R₁ ++ R₂) sess
      = procList api devs batch now R₂ (procList api devs batch now R₁ sess) := by
  unfold procList
  exact List.foldl_append _ _ _ _

lemma procList_ids (R : List String) (sess : List SubRecord) :
    (procList api devs batch now R sess).map SubRecord.deviceId
      = sess.map SubRecord.deviceId := by
  induction R generalizing sess with
  | nil => rfl
  | cons d R ih =>
    rw [procList_cons, ih, updateFirst_ids _ _ (devUpd_deviceId api devs batch now d)]

lemma procList_length (R : List String) (sess : List SubRecord) :
    (procList api devs batch now R sess).length = sess.length := by
  have h := procList_ids api devs batch now R sess
  calc (procList api devs batch now R sess).length
      = ((procList api devs batch now R sess).map SubRecord.deviceId).length := by simp
    _ = (sess.map SubRecord.deviceId).length := by rw [h]
    _ = sess.length := by simp

lemma find?_procList_ne (d' : String) (R : List String) (h : d' ∉ R)
    (sess : List SubRecord) :
    (procList api devs batch now R sess).find? (fun r => r.deviceId = d')
      = sess.find? (fun r => r.deviceId = d') := by
  induction R generalizing sess with
  | nil => rfl
  | cons d R ih =>
    rw [procList_cons,
        ih (fun hm => h (List.mem_cons_of_mem d hm)),
        find?_updateFirst_ne d d' _ (devUpd_deviceId api devs batch now d)
          (fun he => h (he ▸ List.mem_cons_self d R))]

lemma find?_procList_mem (d : String) (R : List String) (hR : R.Nodup) (hd : d ∈ R)
    (sess : List SubRecord) :
    (procList api devs batch now R sess).find? (fun r => r.deviceId = d)
      = (sess.find? (fun r => r.deviceId = d)).map (devUpd api devs batch now d) := by
  induction R generalizing sess with
  | nil => exact absurd hd (List.not_mem_nil d)
  | cons r R ih =>
    rw [procList_cons]
    rcases eq_or_ne r d with he | hne
    · subst he
      have hr : r ∉ R := (List.nodup_cons.mp hR).1
      rw [find?_procList_ne api devs batch now r R hr,
          find?_updateFirst_self r _ (devUpd_deviceId api devs batch now r)]
    · have hd' : d ∈ R := by
        rcases List.mem_cons.mp hd with h1 | h1
        · exact absurd h1.symm hne
        · exact h1
      rw [ih (List.nodup_cons.mp hR).2 hd',
          find?_updateFirst_ne r d _ (devUpd_deviceId api devs batch now r) hne]

end ProcList

lemma nodup_find?_mem (l : List SubRecord) (h : (l.map SubRecord.deviceId).Nodup)
    (r : SubRecord) (hr : r ∈ l) :
    l.find? (fun x => x.deviceId = r.deviceId) = some r := by
  induction l with
  | nil => exact absurd hr (List.not_mem_nil r)
  | cons s rest ih =>
    rcases List.mem_cons.mp hr with he | hm
    · subst he
      exact List.find?_cons_of_pos _ (by simp)
    · have hne : ¬ s.deviceId = r.deviceId := by
        intro he
        have : r.deviceId ∈ rest.map SubRecord.deviceId :=
          List.mem_map_of_mem SubRecord.deviceId hm
        rw [← he] at this
        exact (List.nodup_cons.mp (by simpa using h)).1 this
      rw [List.find?_cons_of_neg _ (by simp [hne]),
          ih (List.nodup_cons.mp (by simpa using h)).2 hm]

lemma find?_map_mkPending (d : String) (D : List String) (hd : d ∈ D) :
    (D.map mkPending).find? (fun r => r.deviceId = d) = some (mkPending d) := by
  induction D with
  | nil => exact absurd hd (List.not_mem_nil d)
  | cons d₀ D ih =>
    rcases eq_or_ne d₀ d with he | hne
    · subst he
      exact List.find?_cons_of_pos _ (by simp [mkPending])
    · have hd' : d ∈ D := by
        rcases List.mem_cons.mp hd with h1 | h1
        · exact absurd h1.symm hne
        · exact h1
      rw [List.map_cons, List.find?_cons_of_neg _ (by simp [mkPending, hne]), ih hd']

lemma adjustExec_comp (k : String) (f g : BatchExecution → BatchExecution)
    (l : List (String × BatchExecution)) :
    adjustExec k g (adjustExec k f l) = adjustExec k (fun ex => g (f ex)) l := by
  induction l with
  | nil => rfl
  | cons p rest ih =>
    simp only [adjustExec, List.map_cons] at *
    by_cases h : p.1 = k
    · rw [if_pos h]
      simp only [if_pos h, ih]
    · rw [if_neg h]
      simp only [if_neg h, ih]

lemma adjustExec_cons_pos (k a : String) (b : BatchExecution)
    (f : BatchExecution → BatchExecution) (rest : List (String × BatchExecution))
    (h : a = k) :
    adjustExec k f ((a, b) :: rest) = (a, f b) :: adjustExec k f rest := by
  simp [adjustExec, h]

lemma adjustExec_cons_neg (k a : String) (b : BatchExecution)
    (f : BatchExecution → BatchExecution) (rest : List (String × BatchExecution))
    (h : ¬ a = k) :
    adjustExec k f ((a, b) :: rest) = (a, b) :: adjustExec k f rest := by
  simp [adjustExec, h]

lemma mapLookup_adjustExec (k k' : String) (f : BatchExecution → BatchExecution)
    (l : List (String × BatchExecution)) :
    mapLookup k' (adjustExec k f l)
      = if k' = k then (mapLookup k' l).map f else mapLookup k' l := by
  induction l with
  | nil => simp [adjustExec, mapLookup]
  | cons p rest ih =>
    obtain ⟨a, b⟩ := p
    rcases eq_or_ne a k with ha | ha
    · rw [adjustExec_cons_pos k a b f rest ha]
      show (if a = k' then some (f b) else mapLookup k' (adjustExec k f rest))
          = if k' = k then
              Option.map f (if a = k' then some b else mapLookup k' rest)
            else (if a = k' then some b else mapLookup k' rest)
      subst ha
      by_cases h' : a = k'
      · subst h'
        rw [if_pos rfl, if_pos rfl, if_pos rfl]
        rfl
      · rw [if_neg h', if_neg h', ih, if_neg (Ne.symm h')]
    · rw [adjustExec_cons_neg k a b f rest ha]
      show (if a = k' then some b else mapLookup k' (adjustExec k f rest))
          = if k' = k then
              Option.map f (if a = k' then some b else mapLookup k' rest)
            else (if a = k' then some b else mapLookup k' rest)
      by_cases h' : a = k'
      · rw [if_neg (fun hk : k' = k => ha (h'.trans hk)), if_pos h', if_pos h']
      · rw [if_neg h', if_neg h', ih]

lemma mapLookup_mapSet_ne {α : Type} (k k' : String) (v : α) (m : List (String × α))
    (h : k' ≠ k) : mapLookup k' (mapSet k v m) = mapLookup k' m := by
  induction m with
  | nil => simp [mapSet, mapLookup, h, Ne.symm h]
  | cons p rest ih =>
    obtain ⟨a, b⟩ := p
    by_cases ha : a = k
    · subst ha
      simp only [mapSet, if_pos rfl, mapLookup]
      rw [if_neg (Ne.symm h), if_neg (Ne.symm h)]
    · simp only [mapSet, if_neg ha, mapLookup]
      by_cases h' : a = k'
      · rw [if_pos h', if_pos h']
      · rw [if_neg h', if_neg h', ih]

lemma mapLookup_runDevice (api : AutomationStartRequest → Except String String)
    (devs : List Device) (batch : BatchConfig) (now : Int) (st : BatchState) (d : String) :
    mapLookup batch.id (runDevice api devs batch now st d).executions
      = (mapLookup batch.id st.executions).map (fun ex =>
          { ex with sessions := updateFirst d (devUpd api devs batch now d) ex.sessions }) := by
  have H : ∀ (stt : SubStatus) (sid err : Option String),
      mapLookup batch.id (updateSessionStatus
          (updateSessionStatus st batch.id d .running none none now)
          batch.id d stt sid err now).executions
        = (mapLookup batch.id st.executions).map (fun ex =>
            { ex with sessions :=
                (updateFirst d
                  (fun s => applyUpdate stt sid err now (applyUpdate .running none none now s))
                  ex.sessions) }) := by
    intro stt sid err
    show mapLookup batch.id
        (adjustExec batch.id (fun ex =>
            { ex with sessions :=
                (updateFirst d (applyUpdate stt sid err now) ex.sessions) })
          (adjustExec batch.id (fun ex =>
            { ex with sessions :=
                (updateFirst d (applyUpdate .running none none now) ex.sessions) })
            st.executions)) = _
    rw [mapLookup_adjustExec, if_pos rfl, mapLookup_adjustExec, if_pos rfl, Option.map_map]
    cases mapLookup batch.id st.executions with
    | none => rfl
    | some ex =>
      refine congrArg some ?_
      show ({ ex with sessions :=
          (updateFirst d (applyUpdate stt sid err now)
            (updateFirst d (applyUpdate .running none none now) ex.sessions)) } :
          BatchExecution) = _
      rw [updateFirst_comp d (applyUpdate .running none none now)
        (applyUpdate stt sid err now) (fun s => rfl)]
  cases hfind : devs.find? (fun dev => dev.udid = d) with
  | none =>
    have hb : runDevice api devs batch now st d
        = updateSessionStatus (updateSessionStatus st batch.id d .running none none now)
            batch.id d .error none (some "Device not available") now := by
      simp only [runDevice, hfind]
    have hlam : (fun s => applyUpdate .error none (some "Device not available") now
        (applyUpdate .running none none now s)) = devUpd api devs batch now d := by
      funext s
      simp only [devUpd, hfind]
    rw [hb, H, hlam]
  | some dev =>
    cases hav : dev.isAvailable
    · have hb : runDevice api devs batch now st d
          = updateSessionStatus (updateSessionStatus st batch.id d .running none none now)
              batch.id d .error none (some "Device not available") now := by
        simp only [runDevice, hfind, hav, Bool.not_false, if_true]
      have hlam : (fun s => applyUpdate .error none (some "Device not available") now
          (applyUpdate .running none none now s)) = devUpd api devs batch now d := by
        funext s
        simp only [devUpd, hfind, hav, Bool.not_false, if_true]
      rw [hb, H, hlam]
    · cases hapi : api (mkRequest batch d) with
      | ok sid =>
        have hb : runDevice api devs batch now st d
            = updateSessionStatus (updateSessionStatus st batch.id d .running none none now)
                batch.id d .completed (some sid) none now := by
          simp only [runDevice, hfind, hav, Bool.not_true, Bool.false_eq_true, if_false, hapi]
        have hlam : (fun s => applyUpdate .completed (some sid) none now
            (applyUpdate .running none none now s)) = devUpd api devs batch now d := by
          funext s
          simp only [devUpd, hfind, hav, Bool.not_true, Bool.false_eq_true, if_false, hapi]
        rw [hb, H, hlam]
      | error msg =>
        have hb : runDevice api devs batch now st d
            = updateSessionStatus (updateSessionStatus st batch.id d .running none none now)
                batch.id d .error none (some msg) now := by
          simp only [runDevice, hfind, hav, Bool.not_true, Bool.false_eq_true, if_false, hapi]
        have hlam : (fun s => applyUpdate .error none (some msg) now
            (applyUpdate .running none none now s)) = devUpd api devs batch now d := by
          funext s
          simp only [devUpd, hfind, hav, Bool.not_true, Bool.false_eq_true, if_false, hapi]
        rw [hb, H, hlam]

lemma execLoop_nil (api : AutomationStartRequest → Except String String) (devs : List Device)
    (batch : BatchConfig) (now : Int) (mc dbMs : Nat) (st : BatchState) :
    execLoop api devs batch now mc dbMs st [] = (st, []) := by
  unfold execLoop
  rfl

lemma map_procList_nil (api : AutomationStartRequest → Except String String)
    (devs : List Device) (batch : BatchConfig) (now : Int) (o : Option BatchExecution) :
    o.map (fun ex => { ex with sessions := procList api devs batch now [] ex.sessions }) = o := by
  cases o with
  | none => rfl
  | some ex => rfl

lemma mapLookup_foldl_runDevice (api : AutomationStartRequest → Except String String)
    (devs : List Device) (batch : BatchConfig) (now : Int) (wave : List String) :
    ∀ st : BatchState,
      mapLookup batch.id ((wave.foldl (runDevice api devs batch now) st)).executions
        = (mapLookup batch.id st.executions).map (fun ex =>
            { ex with sessions := procList api devs batch now wave ex.sessions }) := by
  induction wave with
  | nil =>
    intro st
    rw [List.foldl_nil, map_procList_nil]
  | cons w ws ih =>
    intro st
    rw [List.foldl_cons, ih, mapLookup_runDevice, Option.map_map]
    cases mapLookup batch.id st.executions with
    | none => rfl
    | some ex =>
      refine congrArg some ?_
      show ({ ex with sessions :=
          (procList api devs batch now ws
            (updateFirst w (devUpd api devs batch now w) ex.sessions)) } : BatchExecution) = _
      rw [← procList_cons]

lemma mapLookup_execLoop (api : AutomationStartRequest → Except String String)
    (devs : List Device) (batch : BatchConfig) (now : Int) (mc dbMs : Nat) :
    ∀ (n : Nat) (R : List String), R.length ≤ n → ∀ st : BatchState,
      mapLookup batch.id (execLoop api devs batch now mc dbMs st R).1.executions
        = (mapLookup batch.id st.executions).map (fun ex =>
            { ex with sessions := procList api devs batch now R ex.sessions }) := by
  intro n
  induction n with
  | zero =>
    intro R hR st
    have hRnil : R = [] := List.length_eq_zero.mp (Nat.le_zero.mp hR)
    subst hRnil
    rw [execLoop_nil, map_procList_nil]
  | succ n ihn =>
    intro R hR st
    cases R with
    | nil => rw [execLoop_nil, map_procList_nil]
    | cons d rest' =>
      have hlen : (rest'.drop (mc - 1)).length ≤ n := by
        simp only [List.length_drop]
        simp only [List.length_cons] at hR
        omega
      rw [execLoop]
      show mapLookup batch.id
          (execLoop api devs batch now mc dbMs
            ((d :: rest'.take (mc - 1)).foldl (runDevice api devs batch now) st)
            (rest'.drop (mc - 1))).1.executions = _
      rw [ihn _ hlen, mapLookup_foldl_runDevice, Option.map_map]
      cases mapLookup batch.id st.executions with
      | none => rfl
      | some ex =>
        refine congrArg some ?_
        show ({ ex with sessions :=
            (procList api devs batch now (rest'.drop (mc - 1))
              (procList api devs batch now (d :: rest'.take (mc - 1)) ex.sessions)) } :
            BatchExecution) = _
        rw [← procList_append, List.cons_append, List.take_append_drop]

lemma ids_map_mkPending (D : List String) :
    (D.map mkPending).map SubRecord.deviceId = D := by
  induction D with
  | nil => rfl
  | cons d D ih => simp [mkPending, ih]

lemma procList_terminal (api : AutomationStartRequest → Except String String)
    (devs : List Device) (batch : BatchConfig) (now : Int) (D : List String) (hD : D.Nodup) :
    ∀ r ∈ procList api devs batch now D (D.map mkPending),
      r.status = SubStatus.completed ∨ r.status = SubStatus.error := by
  intro r hr
  have hid : r.deviceId ∈ D := by
    have h1 : r.deviceId
        ∈ (procList api devs batch now D (D.map mkPending)).map SubRecord.deviceId :=
      List.mem_map_of_mem _ hr
    rw [procList_ids, ids_map_mkPending] at h1
    exact h1
  have hids : ((procList api devs batch now D (D.map mkPending)).map SubRecord.deviceId).Nodup := by
    rw [procList_ids, ids_map_mkPending]
    exact hD
  have hfind := nodup_find?_mem _ hids r hr
  have hfind2 := find?_procList_mem api devs batch now r.deviceId D hD hid (D.map mkPending)
  rw [find?_map_mkPending r.deviceId D hid] at hfind2
  rw [hfind] at hfind2
  have hre : r = devUpd api devs batch now r.deviceId (mkPending r.deviceId) :=
    Option.some.inj hfind2
  rw [hre]
  exact devUpd_terminal api devs batch now r.deviceId (mkPending r.deviceId)

/-- C2: after `executeBatch` resolves on a batch with pairwise-distinct device
ids, its `BatchExecution` holds one sub-record per device and every sub-record
is terminal — `completed` or `error`, never `pending`/`running`. -/
theorem executeBatch_terminal (api : AutomationStartRequest → Except String String)
    (now : Int) (st : BatchState) (batch : BatchConfig)
    (h1 : st.isExecuting = false) (h2 : batch.devices.Nodup) :
    ∃ ex, mapLookup batch.id (executeBatch api now st batch).1.executions = some ex
      ∧ ex.sessions.length = batch.devices.length
      ∧ ∀ r ∈ ex.sessions, r.status = SubStatus.completed ∨ r.status = SubStatus.error := by
  rcases hclo : mapLookup batch.id st.executions with _ | fe
  · simp only [executeBatch, h1, Bool.false_eq_true, if_false, hclo]
    rw [mapLookup_execLoop api st.devices batch now
        (match batch.schedule with
         | some s => if s.maxConcurrent = 0 then 3 else s.maxConcurrent
         | none => 3)
        ((match batch.schedule with
          | some s => if s.delayBetween = 0 then 30 else s.delayBetween
          | none => 30) * 1000)
        batch.devices.length batch.devices (le_refl _),
      mapLookup_mapSet_self]
    refine ⟨_, rfl, ?_, ?_⟩
    · show (procList api st.devices batch now batch.devices (batch.devices.map mkPending)).length
        = batch.devices.length
      rw [procList_length]
      simp
    · exact procList_terminal api st.devices batch now batch.devices h2
  · simp only [executeBatch, h1, Bool.false_eq_true, if_false, hclo]
    rw [mapLookup_adjustExec, if_pos rfl,
      mapLookup_execLoop api st.devices batch now
        (match batch.schedule with
         | some s => if s.maxConcurrent = 0 then 3 else s.maxConcurrent
         | none => 3)
        ((match batch.schedule with
          | some s => if s.delayBetween = 0 then 30 else s.delayBetween
          | none => 30) * 1000)
        batch.devices.length batch.devices (le_refl _),
      mapLookup_mapSet_self]
    refine ⟨_, rfl, ?_, ?_⟩
    · show (procList api st.devices batch now batch.devices (batch.devices.map mkPending)).length
        = batch.devices.length
      rw [procList_length]
      simp
    · exact procList_terminal api st.devices batch now batch.devices h2

lemma specWaves_nil (mc : Nat) : specWaves mc [] = [] := by
  rw [specWaves]
  simp

lemma specWaves_cons (mc : Nat) (d : String) (t : List String) (h : mc ≠ 0) :
    specWaves mc (d :: t) = (d :: t).take mc :: specWaves mc ((d :: t).drop mc) := by
  rw [specWaves]
  rw [dif_neg]
  push_neg
  exact ⟨h, by simp⟩

lemma specWaves_isEmpty (mc : Nat) (R : List String) (h : mc ≠ 0) :
    (specWaves mc R).isEmpty = R.isEmpty := by
  cases R with
  | nil => rw [specWaves_nil]; rfl
  | cons d t => rw [specWaves_cons mc d t h]; rfl

lemma take_pos_cons (mc : Nat) (h : mc ≠ 0) (d : String) (t : List String) :
    (d :: t).take mc = d :: t.take (mc - 1) := by
  obtain ⟨m, rfl⟩ := Nat.exists_eq_succ_of_ne_zero h
  rw [List.take_succ_cons, Nat.succ_sub_one]

lemma drop_pos_cons (mc : Nat) (h : mc ≠ 0) (d : String) (t : List String) :
    (d :: t).drop mc = t.drop (mc - 1) := by
  obtain ⟨m, rfl⟩ := Nat.exists_eq_succ_of_ne_zero h
  rw [List.drop_succ_cons, Nat.succ_sub_one]

lemma isEmpty_map_waves (f : List String → List BatchEv) (l : List (List String)) :
    (l.map f).isEmpty = l.isEmpty := by
  cases l <;> rfl

lemma flatten_intersperse_cons (sep w : List BatchEv) (ws : List (List BatchEv)) :
    (List.intersperse sep (w :: ws)).flatten
      = w ++ (if ws.isEmpty then [] else sep) ++ (List.intersperse sep ws).flatten := by
  cases ws with
  | nil => simp [List.intersperse]
  | cons w2 t => simp [List.intersperse, List.append_assoc]

lemma specTrace_nil (mc dbMs : Nat) : specTrace mc dbMs [] = [] := by
  rw [specTrace, specWaves_nil]
  rfl

lemma execLoop_trace (api : AutomationStartRequest → Except String String) (devs : List Device)
    (batch : BatchConfig) (now : Int) (mc dbMs : Nat) (hmc : mc ≠ 0) :
    ∀ (n : Nat) (R : List String), R.length ≤ n → ∀ st : BatchState,
      (execLoop api devs batch now mc dbMs st R).2 = specTrace mc dbMs R := by
  intro n
  induction n with
  | zero =>
    intro R hR st
    have hRnil : R = [] := List.length_eq_zero.mp (Nat.le_zero.mp hR)
    subst hRnil
    rw [execLoop_nil, specTrace_nil]
  | succ n ihn =>
    intro R hR st
    cases R with
    | nil => rw [execLoop_nil, specTrace_nil]
    | cons d rest' =>
      have hlen : (rest'.drop (mc - 1)).length ≤ n := by
        simp only [List.length_drop]
        simp only [List.length_cons] at hR
        omega
      rw [execLoop]
      show ((d :: rest'.take (mc - 1)).enum.map (fun p => BatchEv.launch p.2 (p.1 * 5000))
          ++ (if (rest'.drop (mc - 1)).isEmpty then [] else [BatchEv.interWaveWait dbMs])
          ++ (execLoop api devs batch now mc dbMs
              ((d :: rest'.take (mc - 1)).foldl (runDevice api devs batch now) st)
              (rest'.drop (mc - 1))).2) = _
      rw [ihn _ hlen]
      conv_rhs => rw [specTrace, specWaves_cons mc d rest' hmc, take_pos_cons mc hmc,
        drop_pos_cons mc hmc, List.map_cons, flatten_intersperse_cons, isEmpty_map_waves,
        specWaves_isEmpty mc _ hmc]
      rw [specTrace]
      rfl

/-- C4: under the schedule actually stored by the UI (a defined schedule with
nonzero `maxConcurrent` and `delayBetween`, which is all the creation form can
produce), `executeBatch`'s observable schedule is exactly the spec's: the
devices are partitioned into consecutive waves of `maxConcurrent` (last wave
smaller), waves run strictly in order, the device at 0-indexed position `k` of
a wave is staggered `k × 5000` ms before its start request, and
`delayBetween` seconds (`delayBetween * 1000` ms) are waited between
consecutive waves but not after the last. -/
theorem executeBatch_schedule (api : AutomationStartRequest → Except String String)
    (now : Int) (st : BatchState) (batch : BatchConfig) (db mc : Nat)
    (h1 : st.isExecuting = false) (h2 : batch.schedule = some ⟨db, mc⟩)
    (h3 : mc ≠ 0) (h4 : db ≠ 0) :
    (executeBatch api now st batch).2 = specTrace mc (db * 1000) batch.devices := by
  simp only [executeBatch, h1, Bool.false_eq_true, if_false, h2, if_neg h3, if_neg h4]
  exact execLoop_trace api st.devices batch now mc (db * 1000) h3
    batch.devices.length batch.devices (le_refl _) _

/-- Witness for C4: three devices at `maxConcurrent = 2`, `delayBetween = 1` —
the trace is wave `[d1 @0ms, d2 @5000ms]`, a 1000 ms inter-wave wait, then
wave `[d3 @0ms]`. -/
theorem executeBatch_schedule_witness :
    (⟨[], [], [⟨"d1", "P", true⟩], false⟩ : BatchState).isExecuting = false
    ∧ (⟨"b4", "n", "tinder", ["d1", "d2", "d3"], ⟨none, none, none, none, none⟩,
        some ⟨1, 2⟩, .ready⟩ : BatchConfig).schedule = some ⟨1, 2⟩
    ∧ (2 : Nat) ≠ 0 ∧ (1 : Nat) ≠ 0
    ∧ (executeBatch (fun _ => Except.ok "s") 0 ⟨[], [], [⟨"d1", "P", true⟩], false⟩
        ⟨"b4", "n", "tinder", ["d1", "d2", "d3"], ⟨none, none, none, none, none⟩,
          some ⟨1, 2⟩, .ready⟩).2
      = specTrace 2 (1 * 1000) ["d1", "d2", "d3"] :=
  ⟨rfl, rfl, by decide, by decide,
   executeBatch_schedule (fun _ => Except.ok "s") 0 ⟨[], [], [⟨"d1", "P", true⟩], false⟩
     ⟨"b4", "n", "tinder", ["d1", "d2", "d3"], ⟨none, none, none, none, none⟩,
       some ⟨1, 2⟩, .ready⟩ 1 2 rfl rfl (by decide) (by decide)⟩

/-- C1: on a batch's first-ever execution the handler's `executions` closure
snapshot (captured at invocation, before the `BatchExecution` is inserted)
has no entry for the batch, so the post-wave finalization is skipped entirely:
although every sub-record reaches `completed`, the batch's status is left
`running` (neither `completed` nor `error`) and the `BatchExecution` end time
is never stamped. -/
theorem executeBatch_first_run_not_finalized :
    ((executeBatch (fun _ => Except.ok "s1") 7
        ⟨[⟨"b1", "n", "tinder", ["d1"], ⟨none, none, none, none, none⟩, some ⟨30, 3⟩, .ready⟩],
         [], [⟨"d1", "P", true⟩], false⟩
        ⟨"b1", "n", "tinder", ["d1"], ⟨none, none, none, none, none⟩, some ⟨30, 3⟩,
          .ready⟩).1.batches.map (fun b => b.status) = [BatchStatus.running])
    ∧ (executeBatch (fun _ => Except.ok "s1") 7
        ⟨[⟨"b1", "n", "tinder", ["d1"], ⟨none, none, none, none, none⟩, some ⟨30, 3⟩, .ready⟩],
         [], [⟨"d1", "P", true⟩], false⟩
        ⟨"b1", "n", "tinder", ["d1"], ⟨none, none, none, none, none⟩, some ⟨30, 3⟩,
          .ready⟩).1.executions.map (fun p => (p.1, p.2.endTime, p.2.sessions.map (fun s => s.status)))
      = [("b1", none, [SubStatus.completed])] := by
  constructor
  · simp [executeBatch, execLoop, execLoop_nil, mapLookup, runDevice, updateSessionStatus,
      adjustExec, updateFirst, applyUpdate, mapSet, mkRequest, mkPending]
  · simp [executeBatch, execLoop, execLoop_nil, mapLookup, runDevice, updateSessionStatus,
      adjustExec, updateFirst, applyUpdate, mapSet, mkRequest, mkPending]

/-- Witness for C2: a one-device batch on an available device with a
successful start request ends with its single sub-record terminal. -/
theorem executeBatch_terminal_witness :
    (⟨[⟨"b1", "n", "tinder", ["d1"], ⟨none, none, none, none, none⟩, some ⟨30, 3⟩, .ready⟩],
       [], [⟨"d1", "P", true⟩], false⟩ : BatchState).isExecuting = false
    ∧ (["d1"] : List String).Nodup
    ∧ ∃ ex, mapLookup "b1" (executeBatch (fun _ => Except.ok "s1") 7
        ⟨[⟨"b1", "n", "tinder", ["d1"], ⟨none, none, none, none, none⟩, some ⟨30, 3⟩, .ready⟩],
         [], [⟨"d1", "P", true⟩], false⟩
        ⟨"b1", "n", "tinder", ["d1"], ⟨none, none, none, none, none⟩, some ⟨30, 3⟩,
          .ready⟩).1.executions = some ex
      ∧ ex.sessions.length = (["d1"] : List String).length
      ∧ ∀ r ∈ ex.sessions, r.status = SubStatus.completed ∨ r.status = SubStatus.error :=
  ⟨rfl, by simp,
   executeBatch_terminal (fun _ => Except.ok "s1") 7
     ⟨[⟨"b1", "n", "tinder", ["d1"], ⟨none, none, none, none, none⟩, some ⟨30, 3⟩, .ready⟩],
      [], [⟨"d1", "P", true⟩], false⟩
     ⟨"b1", "n", "tinder", ["d1"], ⟨none, none, none, none, none⟩, some ⟨30, 3⟩, .ready⟩
     rfl (by simp)⟩

/-- C3: batch execution is exclusive — invoking `executeBatch` while an
execution is in progress (`isExecuting`) leaves the whole state unchanged: in
particular the second batch's status is untouched and no second
`BatchExecution` record is created. -/
theorem executeBatch_exclusive (api : AutomationStartRequest → Except String String)
    (now : Int) (st : BatchState) (batch : BatchConfig) (h : st.isExecuting = true) :
    executeBatch api now st batch = (st, [])
      ∧ (executeBatch api now st batch).1.batches = st.batches
      ∧ (executeBatch api now st batch).1.executions = st.executions := by
  have he : executeBatch api now st batch = (st, []) := by
    rw [executeBatch, if_pos h]
  exact ⟨he, by rw [he], by rw [he]⟩

/-- Witness for C3: with an execution in flight, launching a second batch is
a complete no-op on the state. -/
theorem executeBatch_exclusive_witness :
    (⟨[], [], [], true⟩ : BatchState).isExecuting = true
      ∧ executeBatch (fun _ => .ok "s") 0 ⟨[], [], [], true⟩
          ⟨"b2", "n", "tinder", ["d1"], ⟨none, none, none, none, none⟩, none, .ready⟩
        = (⟨[], [], [], true⟩, []) :=
  ⟨rfl,
   (executeBatch_exclusive (fun _ => .ok "s") 0 ⟨[], [], [], true⟩
      ⟨"b2", "n", "tinder", ["d1"], ⟨none, none, none, none, none⟩, none, .ready⟩ rfl).1⟩

end BatchOps

end AutomationBot
